import Mathlib

/-!
Verification development for the music-player repository.

The definitions below are a shallow embedding of the playback core:
the audio engine (playback clock, routing, track store) from the
AudioEngine class, the video synchronization manager from the
VideoManager class, and the renderer-level glue (togglePlayPause,
seekTo, positionWrapper) from the MusicPlayerApp class.

Modelling conventions:
- Times and durations are rationals; the platform audio clock value
  (audioContext.currentTime) is passed explicitly as a `now` argument
  to every operation that reads it.
- The engine is modelled in its initialized state (the JS methods that
  throw when audioContext is null are modelled on the initialized path,
  which is the only state in which the claims apply).
- AudioBufferSourceNode objects are modelled by the ghost list `nodes`:
  every node ever created by playAudioTrack is appended there, and
  stopping a node flips its `stopped` flag.  A track references its
  current node by index, exactly as the JS field sourceNode references
  the current object.
- Asynchronous completions (fetch/decode, setTimeout callbacks) are not
  executed inside the synchronous operations; where the code schedules
  a continuation, the model takes the timestamp of that continuation as
  an extra argument, or records the scheduling as an emitted command.
- The WebAudio node graph wiring (connect and disconnect calls) carries
  no playback state and is omitted; the stop and start bookkeeping that
  setRouting performs on tracks is modelled in full.
-/

namespace MusicPlayer

/-- Video position, the two slots of the player UI. -/
inductive VideoPos
  | top
  | bottom
  deriving DecidableEq, Repr

/-- Discriminant of AudioSource.type in the engine. -/
inductive SrcType
  | audio
  | video
  deriving DecidableEq, Repr

/-- AudioSource from the engine: a routing endpoint. -/
structure AudioSource where
  type : SrcType
  id : String
  position : Option VideoPos := none
  deriving DecidableEq, Repr

/-- AudioRouting from the engine: the two stereo endpoints. -/
structure AudioRouting where
  left : Option AudioSource
  right : Option AudioSource
  deriving DecidableEq, Repr

/-- The masterClock record of the engine. -/
structure MasterClock where
  currentTime : ℚ
  isPlaying : Bool
  deriving DecidableEq, Repr

/-- A created AudioBufferSourceNode: which track it plays, the buffer
offset passed to start, and whether stop was called on it. -/
structure SourceNode where
  trackId : String
  startOffset : ℚ
  stopped : Bool
  deriving DecidableEq, Repr

/-- LoadedAudioTrack from the engine.  The decoded buffer is modelled
by its duration; sourceNode holds the index of the current node in
AudioEngine.nodes. -/
structure AudioTrack where
  id : String
  url : String
  buffer : Option ℚ
  sourceNode : Option ℕ
  gain : ℚ
  isLoaded : Bool
  isPlaying : Bool
  deriving DecidableEq, Repr

/-- The AudioEngine state (initialized).  fetchesStarted is a ghost log
of the track ids for which a fetch has been started by loadAudioTrack. -/
structure AudioEngine where
  audioTracks : List AudioTrack
  currentRouting : AudioRouting
  masterClock : MasterClock
  playStartContextTime : Option ℚ
  playStartOffset : ℚ
  nodes : List SourceNode
  fetchesStarted : List String
  deriving DecidableEq, Repr

/-- Lookup in the audioTracks map (the JS Map keyed by track id). -/
def findTrack (l : List AudioTrack) (id : String) : Option AudioTrack :=
  l.find? (fun t => t.id = id)

/-- Update the entry with the given id in the audioTracks map. -/
def updTrack (l : List AudioTrack) (id : String) (f : AudioTrack → AudioTrack) :
    List AudioTrack :=
  l.map (fun t => if t.id = id then f t else t)

/-- Map.set semantics: replace the entry with the same id, or append. -/
def setTrack (l : List AudioTrack) (tr : AudioTrack) : List AudioTrack :=
  if ∃ t ∈ l, t.id = tr.id then l.map (fun t => if t.id = tr.id then tr else t)
  else l ++ [tr]

/-- Calling stop on the node at index n: its stopped flag becomes true. -/
def markStopped : List SourceNode → ℕ → List SourceNode
  | [], _ => []
  | nd :: rest, 0 => { nd with stopped := true } :: rest
  | nd :: rest, n + 1 => nd :: markStopped rest n

/-- AudioEngine.getMasterClock: while playing with a recorded time base,
report playStartOffset plus the elapsed context time; otherwise report
the frozen masterClock record. -/
def AudioEngine.getMasterClock (s : AudioEngine) (now : ℚ) : MasterClock :=
  match s.playStartContextTime with
  | some r =>
    if s.masterClock.isPlaying then
      { currentTime := s.playStartOffset + max 0 (now - r), isPlaying := true }
    else s.masterClock
  | none => s.masterClock

/-- AudioEngine.playAudioTrack: stop and discard any existing source for
the id, create a new source node and start it at the buffer offset
masterClock.currentTime.  No-op when the track is absent or has no
decoded buffer. -/
def AudioEngine.playAudioTrack (s : AudioEngine) (id : String) : AudioEngine :=
  match findTrack s.audioTracks id with
  | none => s
  | some t =>
    match t.buffer with
    | none => s
    | some _ =>
      let nodes1 :=
        match t.sourceNode with
        | some n => markStopped s.nodes n
        | none => s.nodes
      let idx := nodes1.length
      { s with
        nodes := nodes1 ++ [{ trackId := id, startOffset := s.masterClock.currentTime,
                              stopped := false }],
        audioTracks := updTrack s.audioTracks id
          (fun tr => { tr with sourceNode := some idx, isPlaying := true }) }

/-- AudioEngine.stopAudioTrack: stop the current source of the id and
clear the reference; tolerates absent tracks and already stopped tracks. -/
def AudioEngine.stopAudioTrack (s : AudioEngine) (id : String) : AudioEngine :=
  match findTrack s.audioTracks id with
  | none => s
  | some t =>
    match t.sourceNode with
    | none => s
    | some n =>
      { s with
        nodes := markStopped s.nodes n,
        audioTracks := updTrack s.audioTracks id
          (fun tr => { tr with sourceNode := none, isPlaying := false }) }

/-- The forEach loop of pauseAll: stop every track in the store. -/
def AudioEngine.stopAllTracks (s : AudioEngine) : AudioEngine :=
  (s.audioTracks.map (fun t => t.id)).foldl (fun acc id => acc.stopAudioTrack id) s

/-- AudioEngine.pauseAll: stop every track, freeze the master clock from
the recorded time base, clear the time base and the playing flag. -/
def AudioEngine.pauseAll (s : AudioEngine) (now : ℚ) : AudioEngine :=
  let s1 := s.stopAllTracks
  let s2 :=
    match s1.playStartContextTime with
    | some r =>
      { s1 with masterClock :=
          { s1.masterClock with currentTime := s1.playStartOffset + max 0 (now - r) } }
    | none => s1
  { s2 with playStartContextTime := none,
            masterClock := { s2.masterClock with isPlaying := false } }

/-- AudioEngine.playAll: start the routed audio tracks (the right one is
skipped when its id equals the id of the left endpoint), then record the
time base and set the playing flag. -/
def AudioEngine.playAll (s : AudioEngine) (now : ℚ) : AudioEngine :=
  let s1 :=
    match s.currentRouting.left with
    | some l => if l.type = SrcType.audio then s.playAudioTrack l.id else s
    | none => s
  let s2 :=
    match s.currentRouting.right with
    | some rs =>
      if rs.type = SrcType.audio ∧
          s.currentRouting.left.map (fun (l : AudioSource) => l.id) ≠ some rs.id then
        s1.playAudioTrack rs.id
      else s1
    | none => s1
  { s2 with
    playStartContextTime := some now,
    playStartOffset := s2.masterClock.currentTime,
    masterClock := { s2.masterClock with isPlaying := true } }

/-- AudioEngine.seekAll: store the new time, and if playing run the
pause and (after the 10 ms timeout, at context time nowPlay) play cycle. -/
def AudioEngine.seekAll (s : AudioEngine) (time nowPause nowPlay : ℚ) : AudioEngine :=
  let s1 := { s with masterClock := { s.masterClock with currentTime := time } }
  if s1.masterClock.isPlaying then (s1.pauseAll nowPause).playAll nowPlay
  else s1

/-- The selectedIds set of setRouting: ids of audio endpoints with a
truthy (non-empty) id. -/
def selectedAudioIds (routing : AudioRouting) : List String :=
  (match routing.left with
   | some l => if l.type = SrcType.audio ∧ l.id ≠ ("") then [l.id] else []
   | none => []) ++
  (match routing.right with
   | some r => if r.type = SrcType.audio ∧ r.id ≠ ("") then [r.id] else []
   | none => [])

/-- The restart block inside the wasPlaying branch of setRouting: start
the left endpoint when it is an audio track with a truthy id, then the
right endpoint under the same condition plus the guard that its id
differs from the id of the left endpoint. -/
def AudioEngine.restartSelected (u : AudioEngine) (routing : AudioRouting) : AudioEngine :=
  let s4 :=
    match routing.left with
    | some l => if l.type = SrcType.audio ∧ l.id ≠ ("") then u.playAudioTrack l.id
                else u
    | none => u
  match routing.right with
  | some r =>
    if r.type = SrcType.audio ∧ r.id ≠ ("") ∧
        routing.left.map (fun (l : AudioSource) => l.id) ≠ some r.id then
      s4.playAudioTrack r.id
    else s4
  | none => s4

/-- AudioEngine.setRouting: capture the playing flag and the current
master time, install the new routing, stop every track not selected by
the new routing, and if playback was in progress reset the time base to
the captured position and restart the selected tracks there. -/
def AudioEngine.setRouting (s : AudioEngine) (routing : AudioRouting) (now : ℚ) :
    AudioEngine :=
  let wasPlaying := s.masterClock.isPlaying
  let currentPos := (s.getMasterClock now).currentTime
  let s1 := { s with currentRouting := routing }
  let sel := selectedAudioIds routing
  let s2 := (s1.audioTracks.map (fun t => t.id)).foldl
    (fun acc id => if id ∈ sel then acc else acc.stopAudioTrack id) s1
  if wasPlaying then
    let s3 := { s2 with
      masterClock := { s2.masterClock with currentTime := currentPos },
      playStartContextTime := some now,
      playStartOffset := currentPos }
    let s5 := s3.restartSelected routing
    { s5 with masterClock := { s5.masterClock with isPlaying := true } }
  else s2

/-- Durations contributed by one routing endpoint, as collected by
getMasterAudioDuration. -/
def AudioEngine.collectDuration (s : AudioEngine) (src : Option AudioSource) : List ℚ :=
  match src with
  | some a =>
    if a.type = SrcType.audio ∧ a.id ≠ ("") then
      match findTrack s.audioTracks a.id with
      | some t =>
        match t.buffer with
        | some d => [d]
        | none => []
      | none => []
    else []
  | none => []

/-- AudioEngine.getMasterAudioDuration: maximum duration among the
currently routed audio tracks, none when no routed duration is known. -/
def AudioEngine.getMasterAudioDuration (s : AudioEngine) : Option ℚ :=
  let ds := s.collectDuration s.currentRouting.left ++
            s.collectDuration s.currentRouting.right
  match ds with
  | [] => none
  | d :: rest => some (rest.foldl max d)

/-- The synchronous begin phase of AudioEngine.loadAudioTrack: create a
fresh track entry, store it in the map (replacing any entry with the
same id), and start a fetch for the id.  The later asynchronous
completion is not part of this synchronous step. -/
def AudioEngine.loadAudioTrackBegin (s : AudioEngine) (id url : String) : AudioEngine :=
  let track : AudioTrack :=
    { id := id, url := url, buffer := none, sourceNode := none,
      gain := 1, isLoaded := false, isPlaying := false }
  { s with audioTracks := setTrack s.audioTracks track,
           fetchesStarted := s.fetchesStarted ++ [id] }

/-- Kind of a video player: NativeVideoPlayer or YouTubePlayer. -/
inductive PlayerKind
  | native
  | youtube
  deriving DecidableEq, Repr

/-- A video player as seen through the load, play, pause, seek,
getCurrentTime, isPaused capability surface. -/
structure SimPlayer where
  kind : PlayerKind
  currentTime : ℚ
  duration : ℚ
  paused : Bool
  deriving DecidableEq, Repr

/-- Player seek: the native element clamps into the valid range, the
embedded player forwards the raw time. -/
def SimPlayer.seek (pl : SimPlayer) (time : ℚ) : SimPlayer :=
  match pl.kind with
  | PlayerKind.native => { pl with currentTime := max 0 (min time pl.duration) }
  | PlayerKind.youtube => { pl with currentTime := time }

/-- Player play (the success path; play failures are logged and do not
change the model state). -/
def SimPlayer.play (pl : SimPlayer) : SimPlayer :=
  { pl with paused := false }

/-- Player pause. -/
def SimPlayer.pause (pl : SimPlayer) : SimPlayer :=
  { pl with paused := true }

/-- The per-position VideoSource configuration field the manager reads:
its optional fixed offset in seconds. -/
structure VideoSourceCfg where
  offsetSeconds : Option ℚ
  deriving DecidableEq, Repr

/-- Commands the video manager issues to players and timers; the command
trace makes the issued calls and their order observable. -/
inductive VCmd
  | seekCmd (pos : VideoPos) (time : ℚ)
  | playCmd (pos : VideoPos)
  | pauseCmd (pos : VideoPos)
  | cancelTimer (pos : VideoPos)
  | scheduleTimer (pos : VideoPos) (waitMs : ℤ)
  deriving DecidableEq, Repr

/-- The VideoManager state.  pendingTop and pendingBottom record whether
pendingPlayTimeouts holds an entry for the position. -/
structure VideoManager where
  topPlayer : Option SimPlayer
  bottomPlayer : Option SimPlayer
  topVideoSource : Option VideoSourceCfg
  bottomVideoSource : Option VideoSourceCfg
  pendingTop : Bool
  pendingBottom : Bool
  playRequested : Bool
  deriving DecidableEq, Repr

def VideoManager.getPlayer (vm : VideoManager) (p : VideoPos) : Option SimPlayer :=
  match p with
  | VideoPos.top => vm.topPlayer
  | VideoPos.bottom => vm.bottomPlayer

def VideoManager.setPlayer (vm : VideoManager) (p : VideoPos) (pl : SimPlayer) :
    VideoManager :=
  match p with
  | VideoPos.top => { vm with topPlayer := some pl }
  | VideoPos.bottom => { vm with bottomPlayer := some pl }

def VideoManager.getSource (vm : VideoManager) (p : VideoPos) : Option VideoSourceCfg :=
  match p with
  | VideoPos.top => vm.topVideoSource
  | VideoPos.bottom => vm.bottomVideoSource

def VideoManager.getPending (vm : VideoManager) (p : VideoPos) : Bool :=
  match p with
  | VideoPos.top => vm.pendingTop
  | VideoPos.bottom => vm.pendingBottom

def VideoManager.setPending (vm : VideoManager) (p : VideoPos) (b : Bool) : VideoManager :=
  match p with
  | VideoPos.top => { vm with pendingTop := b }
  | VideoPos.bottom => { vm with pendingBottom := b }

/-- VideoManager.getOffsetFor: offsetSeconds of the source at the
position, defaulting to 0. -/
def VideoManager.getOffsetFor (vm : VideoManager) (p : VideoPos) : ℚ :=
  ((vm.getSource p).bind (fun c => c.offsetSeconds)).getD 0

/-- VideoManager thresholds (seconds). -/
def nativeSyncThresholdSeconds : ℚ := 0.05

def youtubeSyncThresholdSeconds : ℚ := 1.0

/-- VideoManager.getSyncThreshold: per-kind drift threshold. -/
def VideoManager.getSyncThreshold (pl : SimPlayer) : ℚ :=
  match pl.kind with
  | PlayerKind.youtube => youtubeSyncThresholdSeconds
  | PlayerKind.native => nativeSyncThresholdSeconds

/-- VideoManager.clearPendingPlay: cancel the pending timer for the
position when one exists. -/
def VideoManager.clearPendingPlay (vm : VideoManager) (p : VideoPos) :
    VideoManager × List VCmd :=
  if vm.getPending p then (vm.setPending p false, [VCmd.cancelTimer p])
  else (vm, [])

/-- VideoManager.calculateTargetTime: master time plus the offset,
clamped at zero. -/
def VideoManager.calculateTargetTime (vm : VideoManager) (p : VideoPos)
    (masterTime : ℚ) : ℚ :=
  let offset := vm.getOffsetFor p
  let targetTime := masterTime + offset
  if targetTime < 0 then 0 else targetTime

/-- VideoManager.applySeekWithOffset: seek the player at the position to
the offset-mapped target time. -/
def VideoManager.applySeekWithOffset (vm : VideoManager) (p : VideoPos)
    (masterTime : ℚ) : VideoManager × List VCmd :=
  match vm.getPlayer p with
  | none => (vm, [])
  | some pl =>
    let t := vm.calculateTargetTime p masterTime
    (vm.setPlayer p (pl.seek t), [VCmd.seekCmd p t])

/-- VideoManager.playWithOffset (synchronous part): cancel any pending
timer for the position, seek, then either pause and schedule a deferred
play (negative desired time) or play.  The deferred callback itself runs
later on the event loop and is not part of this synchronous step. -/
def VideoManager.playWithOffset (vm : VideoManager) (p : VideoPos) (masterTime : ℚ) :
    VideoManager × List VCmd :=
  match vm.getPlayer p with
  | none => (vm, [])
  | some _ =>
    let offset := vm.getOffsetFor p
    let desiredTime := masterTime + offset
    let r1 := vm.clearPendingPlay p
    let r2 := r1.1.applySeekWithOffset p masterTime
    if desiredTime < 0 then
      match r2.1.getPlayer p with
      | some pl =>
        let vm3 := (r2.1.setPlayer p pl.pause).setPending p true
        let waitMs : ℤ := max 0 (round (|desiredTime| * 1000))
        (vm3, r1.2 ++ r2.2 ++ [VCmd.pauseCmd p, VCmd.scheduleTimer p waitMs])
      | none => (r2.1, r1.2 ++ r2.2)
    else
      match r2.1.getPlayer p with
      | some pl =>
        ((r2.1.setPlayer p pl.play), r1.2 ++ r2.2 ++ [VCmd.playCmd p])
      | none => (r2.1, r1.2 ++ r2.2)

/-- VideoManager.playAll: set playRequested, then run playWithOffset for
each loaded position. -/
def VideoManager.playAll (vm : VideoManager) (masterTime : ℚ) :
    VideoManager × List VCmd :=
  let vm0 := { vm with playRequested := true }
  let r1 :=
    if vm0.topPlayer.isSome then vm0.playWithOffset VideoPos.top masterTime
    else (vm0, [])
  let r2 :=
    if r1.1.bottomPlayer.isSome then r1.1.playWithOffset VideoPos.bottom masterTime
    else (r1.1, [])
  (r2.1, r1.2 ++ r2.2)

/-- VideoManager.pauseAll: clear playRequested, cancel both pending
timers, pause both loaded players. -/
def VideoManager.pauseAll (vm : VideoManager) : VideoManager × List VCmd :=
  let vm0 := { vm with playRequested := false }
  let r1 := vm0.clearPendingPlay VideoPos.top
  let r2 := r1.1.clearPendingPlay VideoPos.bottom
  let r3 :=
    match r2.1.topPlayer with
    | some pl => ({ r2.1 with topPlayer := some pl.pause }, [VCmd.pauseCmd VideoPos.top])
    | none => (r2.1, ([] : List VCmd))
  let r4 :=
    match r3.1.bottomPlayer with
    | some pl =>
      ({ r3.1 with bottomPlayer := some pl.pause }, [VCmd.pauseCmd VideoPos.bottom])
    | none => (r3.1, ([] : List VCmd))
  (r4.1, r1.2 ++ r2.2 ++ r3.2 ++ r4.2)

/-- VideoManager.seekAll: apply the offset mapping and seek every loaded
player; play state and pending timers are not touched. -/
def VideoManager.seekAll (vm : VideoManager) (time : ℚ) : VideoManager × List VCmd :=
  let r1 :=
    match vm.topPlayer with
    | some _ => vm.applySeekWithOffset VideoPos.top time
    | none => (vm, ([] : List VCmd))
  let r2 :=
    match r1.1.bottomPlayer with
    | some _ => r1.1.applySeekWithOffset VideoPos.bottom time
    | none => (r1.1, ([] : List VCmd))
  (r2.1, r1.2 ++ r2.2)

/-- VideoManager.isAnyPlaying: some loaded player is not paused, or a
deferred play timer is pending for some position. -/
def VideoManager.isAnyPlaying (vm : VideoManager) : Bool :=
  let topPlaying := match vm.topPlayer with | some pl => !pl.paused | none => false
  let bottomPlaying := match vm.bottomPlayer with | some pl => !pl.paused | none => false
  let pending := vm.pendingTop || vm.pendingBottom
  topPlaying || bottomPlaying || pending

/-- One iteration of the syncToMaster loop for a position that has both
a player and a source: corrective seek when drift exceeds the per-kind
threshold, then resume when paused with a non-negative target and no
pending timer. -/
def VideoManager.syncPosition (vm : VideoManager) (p : VideoPos) (masterTime : ℚ) :
    VideoManager × List VCmd :=
  match vm.getPlayer p, vm.getSource p with
  | some pl, some _ =>
    let offset := vm.getOffsetFor p
    let targetTime := vm.calculateTargetTime p masterTime
    let drift := |pl.currentTime - offset - masterTime|
    let r1 :=
      if drift > VideoManager.getSyncThreshold pl then vm.applySeekWithOffset p masterTime
      else (vm, ([] : List VCmd))
    let r2 :=
      if targetTime ≥ 0 ∧ (r1.1.getPlayer p).map (fun q => q.paused) = some true ∧
          r1.1.getPending p = false then
        match r1.1.getPlayer p with
        | some q => (r1.1.setPlayer p q.play, [VCmd.playCmd p])
        | none => (r1.1, ([] : List VCmd))
      else (r1.1, ([] : List VCmd))
    (r2.1, r1.2 ++ r2.2)
  | _, _ => (vm, [])

/-- VideoManager.syncToMaster: no-op unless playRequested; otherwise run
the drift correction for each active position. -/
def VideoManager.syncToMaster (vm : VideoManager) (masterTime : ℚ) :
    VideoManager × List VCmd :=
  if vm.playRequested = false then (vm, [])
  else
    let r1 := vm.syncPosition VideoPos.top masterTime
    let r2 := r1.1.syncPosition VideoPos.bottom masterTime
    (r2.1, r1.2 ++ r2.2)

/-- The refusal surfaced by togglePlayPause when no master duration is
available (the alert branch of the code). -/
inductive PlayError
  | noAudioRouted
  deriving DecidableEq, Repr

/-- The MusicPlayerApp state relevant to playback control. -/
structure App where
  engine : AudioEngine
  video : VideoManager
  isPlaying : Bool
  playbackEnded : Bool
  pendingMediaLoads : ℕ
  deriving DecidableEq, Repr

/-- MusicPlayerApp.isMediaLoading. -/
def App.isMediaLoading (a : App) : Bool :=
  decide (0 < a.pendingMediaLoads)

/-- MusicPlayerApp.seekTo: clamp the time at zero, seek the audio engine
and the video manager (the visuals update carries no model state). -/
def App.seekTo (a : App) (timeSec nowPause nowPlay : ℚ) : App :=
  let clamped := max 0 timeSec
  let e := a.engine.seekAll clamped nowPause nowPlay
  let v := (a.video.seekAll clamped).1
  { a with engine := e, video := v }

/-- MusicPlayerApp.togglePlayPause.  The media-loading guard and the
pause path return no error; the play path requires a positive master
audio duration and surfaces noAudioRouted otherwise (the alert branch),
starting nothing.  On success audio starts before video. -/
def App.togglePlayPause (a : App) (now : ℚ) : App × Option PlayError :=
  if a.isPlaying = false ∧ a.isMediaLoading = true then (a, none)
  else if a.isPlaying then
    let v := (a.video.pauseAll).1
    let e := a.engine.pauseAll now
    ({ a with video := v, engine := e, isPlaying := false, playbackEnded := false }, none)
  else
    match a.engine.getMasterAudioDuration with
    | none => (a, some PlayError.noAudioRouted)
    | some d =>
      if d ≤ 0 then (a, some PlayError.noAudioRouted)
      else
        let clockBefore := a.engine.getMasterClock now
        let reachedEnd := a.playbackEnded = true ∨ clockBefore.currentTime ≥ d - 0.01
        let a1 := if reachedEnd then a.seekTo 0 now now else a
        let a2 := { a1 with playbackEnded := false }
        let e := a2.engine.playAll now
        let clock := e.getMasterClock now
        let v := (a2.video.playAll clock.currentTime).1
        ({ a2 with engine := e, video := v, isPlaying := true }, none)

/-- MusicPlayerApp.positionWrapper translation (the scroll position
math): clamp the time into the track, map it to a pixel offset along the
raster of width w, and clamp the translation so the strip stays between
the two center-aligned boundary positions.  v is the viewport width and
d the master audio duration. -/
def positionTx (v w d t : ℚ) : ℚ :=
  let clamped := max 0 (min t d)
  let x := clamped / d * w
  let centerX := v / 2
  let tx := centerX - x
  let minTx := centerX - w
  let maxTx := centerX
  max minTx (min maxTx tx)

/-- The spec formula for the forward mapping, written exactly as the
spec states it: positionPx(t) = clamp(V/2 - (t/masterDuration)*W,
V/2 - W, V/2). -/
def specPositionPx (v w d t : ℚ) : ℚ :=
  max (v / 2 - w) (min (v / 2) (v / 2 - t / d * w))

/-- Modelled from the spec: the inverse pixel-to-time mapping for
click/drag seek, t = clamp(((V/2 - px)/W)*masterDuration, 0,
masterDuration).  The click/drag seek handler is not among the sources
under src, so this definition follows the spec sentence verbatim. -/
def inversePositionPx (v w d px : ℚ) : ℚ :=
  max 0 (min ((v / 2 - px) / w * d) d)

/-! ### Engine invariant: each track references at most one live source node -/

/-- Check that the source reference of a track points at a live node of
that track. -/
def srcOk (nodes : List SourceNode) (t : AudioTrack) : Bool :=
  match t.sourceNode with
  | none => true
  | some n =>
    match nodes[n]? with
    | none => false
    | some nd => nd.trackId == t.id && !nd.stopped

/-- Check that the isPlaying flag of a track mirrors its source
reference. -/
def flagOk (t : AudioTrack) : Bool :=
  t.isPlaying == t.sourceNode.isSome

/-- Check that a live node at index i is referenced by the track it
plays. -/
def nodeOk (tracks : List AudioTrack) (nodes : List SourceNode) (i : ℕ) : Bool :=
  match nodes[i]? with
  | none => true
  | some nd =>
    nd.stopped || tracks.any (fun t => t.id == nd.trackId && t.sourceNode == some i)

/-- List-level engine invariant: track ids are unique, every source
reference points at a live node of the right track with a matching
playing flag, and every live node is referenced by the track it plays. -/
def InvL (tracks : List AudioTrack) (nodes : List SourceNode) : Prop :=
  (tracks.map (fun t => t.id)).Nodup ∧
  (∀ t ∈ tracks, srcOk nodes t = true ∧ flagOk t = true) ∧
  (∀ i ∈ List.range nodes.length, nodeOk tracks nodes i = true)

/-- The engine invariant. -/
def EngineInv (s : AudioEngine) : Prop :=
  InvL s.audioTracks s.nodes

/-- At most one live playback instance exists per track id. -/
def atMostOneActive (s : AudioEngine) : Prop :=
  ∀ (i j : ℕ) (ndi ndj : SourceNode), s.nodes[i]? = some ndi → s.nodes[j]? = some ndj →
    ndi.stopped = false → ndj.stopped = false → ndi.trackId = ndj.trackId → i = j

/-- No live node for the id remains in the node list. -/
def noLive (nodes : List SourceNode) (id : String) : Prop :=
  ∀ nd ∈ nodes, nd.trackId = id → nd.stopped = true

/-- Some live node for the id exists, started at the given buffer
offset. -/
def liveAt (nodes : List SourceNode) (id : String) (t0 : ℚ) : Prop :=
  ∃ nd ∈ nodes, nd.trackId = id ∧ nd.stopped = false ∧ nd.startOffset = t0

/-- The position a command addresses. -/
def cmdPos : VCmd → VideoPos
  | VCmd.seekCmd p _ => p
  | VCmd.playCmd p => p
  | VCmd.pauseCmd p => p
  | VCmd.cancelTimer p => p
  | VCmd.scheduleTimer p _ => p

/-! ### Concrete states used by witnesses and counterexamples -/

/-- A fresh engine with nothing loaded or routed. -/
def engine0 : AudioEngine :=
  { audioTracks := [], currentRouting := { left := none, right := none },
    masterClock := { currentTime := 0, isPlaying := false },
    playStartContextTime := none, playStartOffset := 0, nodes := [], fetchesStarted := [] }

/-- An engine playing with time base recorded at context time 1 and
start offset 2. -/
def c1Engine : AudioEngine :=
  { engine0 with
    playStartContextTime := some 1, playStartOffset := 2,
    masterClock := { currentTime := 2, isPlaying := true } }

/-- A stopped engine frozen at 5 seconds. -/
def c1Stopped : AudioEngine :=
  { engine0 with
    masterClock := { currentTime := 5, isPlaying := false } }

/-- An empty video manager. -/
def vmEmpty : VideoManager :=
  { topPlayer := none, bottomPlayer := none, topVideoSource := none,
    bottomVideoSource := none, pendingTop := false, pendingBottom := false,
    playRequested := false }

/-- An app with a fresh engine and no video: nothing routed. -/
def c2App : App :=
  { engine := engine0, video := vmEmpty, isPlaying := false, playbackEnded := false,
    pendingMediaLoads := 0 }

/-- A video manager playing a native top video whose reported time is
ct, with no offset. -/
def c6vm (ct : ℚ) : VideoManager :=
  { topPlayer :=
      some ({ kind := PlayerKind.native, currentTime := ct, duration := 100,
              paused := false }),
    bottomPlayer := none, topVideoSource := some ({ offsetSeconds := none }),
    bottomVideoSource := none, pendingTop := false, pendingBottom := false,
    playRequested := true }

/-- A video manager with a paused native top video and a pending
deferred-play timer for the top position. -/
def c7vm : VideoManager :=
  { topPlayer :=
      some ({ kind := PlayerKind.native, currentTime := 0, duration := 100,
              paused := true }),
    bottomPlayer := none, topVideoSource := some ({ offsetSeconds := some 0 }),
    bottomVideoSource := none, pendingTop := true, pendingBottom := false,
    playRequested := true }

/-- An engine that is playing one loaded, routed audio track (id a) at
position 5 seconds: time base recorded at context time 10, offset 0. -/
def c4Engine : AudioEngine :=
  { audioTracks := [{ id := "a", url := "a.mp3", buffer := some 200, sourceNode := some 0,
                      gain := 1, isLoaded := true, isPlaying := true }],
    currentRouting := { left := some ({ type := SrcType.audio, id := "a", position := none }),
                        right := none },
    masterClock := { currentTime := 0, isPlaying := true },
    playStartContextTime := some 10, playStartOffset := 0,
    nodes := [{ trackId := "a", startOffset := 0, stopped := false }],
    fetchesStarted := [] }

/-- The app state around c4Engine. -/
def c4App : App :=
  { engine := c4Engine, video := vmEmpty, isPlaying := true, playbackEnded := false,
    pendingMediaLoads := 0 }

/-- An engine with two loaded tracks a and b, track a routed to both
channels, while stopped at time 3. -/
def c3Engine : AudioEngine :=
  { audioTracks := [
      { id := "a", url := "a.mp3", buffer := some 200, sourceNode := some 0,
        gain := 1, isLoaded := true, isPlaying := true },
      { id := "b", url := "b.mp3", buffer := some 100, sourceNode := some 1,
        gain := 1, isLoaded := true, isPlaying := true }],
    currentRouting := { left := some ({ type := SrcType.audio, id := "a", position := none }),
                        right := some ({ type := SrcType.audio, id := "b", position := none }) },
    masterClock := { currentTime := 3, isPlaying := true },
    playStartContextTime := some 10, playStartOffset := 3,
    nodes := [{ trackId := "a", startOffset := 3, stopped := false },
              { trackId := "b", startOffset := 3, stopped := false }],
    fetchesStarted := [] }

/-- The routing that moves track b to the left channel and drops a. -/
def c3Routing : AudioRouting :=
  { left := some ({ type := SrcType.audio, id := "b", position := none }), right := none }

/-! ### List-level helper lemmas -/

theorem mem_iff_idx {α : Type} {a : α} {l : List α} : a ∈ l ↔ ∃ n : ℕ, l[n]? = some a := by
  constructor
  · intro h
    rcases List.mem_iff_get?.mp h with ⟨n, hn⟩
    exact ⟨n, by rw [List.get?_eq_getElem?] at hn; exact hn⟩
  · rintro ⟨n, hn⟩
    exact List.mem_iff_get?.mpr ⟨n, by rw [List.get?_eq_getElem?]; exact hn⟩

theorem markStopped_length (l : List SourceNode) (n : ℕ) :
    (markStopped l n).length = l.length := by
  induction l generalizing n with
  | nil => rfl
  | cons hd tl ih =>
    cases n with
    | zero => rfl
    | succ m => simpa [markStopped] using ih m

theorem markStopped_idx (l : List SourceNode) (n i : ℕ) :
    (markStopped l n)[i]? =
      if i = n then (l[n]?).map (fun nd => { nd with stopped := true })
      else l[i]? := by
  induction l generalizing n i with
  | nil => simp [markStopped]
  | cons hd tl ih =>
    cases n with
    | zero =>
      cases i with
      | zero => simp [markStopped]
      | succ j => simp [markStopped]
    | succ m =>
      cases i with
      | zero => simp [markStopped]
      | succ j =>
        simp only [markStopped, List.getElem?_cons_succ, ih, Nat.succ.injEq]

theorem updTrack_map_id (l : List AudioTrack) (id : String) (f : AudioTrack → AudioTrack)
    (hf : ∀ tr, (f tr).id = tr.id) :
    (updTrack l id f).map (fun t => t.id) = l.map (fun t => t.id) := by
  unfold updTrack
  rw [List.map_map]
  refine List.map_congr_left ?_
  intro t _
  by_cases h : t.id = id <;> simp [h, hf]

theorem findTrack_updTrack (l : List AudioTrack) (id : String) (f : AudioTrack → AudioTrack)
    (hf : ∀ tr, (f tr).id = tr.id) (idq : String) :
    findTrack (updTrack l id f) idq =
      (findTrack l idq).map (fun tr => if tr.id = id then f tr else tr) := by
  induction l with
  | nil => rfl
  | cons hd tl ih =>
    unfold findTrack updTrack at *
    simp only [List.map_cons]
    by_cases h : hd.id = idq
    · have hid : (if hd.id = id then f hd else hd).id = idq := by
        by_cases h2 : hd.id = id
        · rw [if_pos h2, hf]; exact h
        · rw [if_neg h2]; exact h
      rw [List.find?_cons_of_pos _ (by simpa using hid),
          List.find?_cons_of_pos _ (by simpa using h)]
      simp
    · have hid : (if hd.id = id then f hd else hd).id ≠ idq := by
        by_cases h2 : hd.id = id
        · rw [if_pos h2, hf]; exact h
        · rw [if_neg h2]; exact h
      rw [List.find?_cons_of_neg _ (by simpa using hid),
          List.find?_cons_of_neg _ (by simpa using h)]
      exact ih

theorem findTrack_some {l : List AudioTrack} {id : String} {t : AudioTrack}
    (h : findTrack l id = some t) : t ∈ l ∧ t.id = id := by
  refine ⟨List.mem_of_find?_eq_some h, ?_⟩
  have := List.find?_some h
  simpa using this

theorem findTrack_eq_none {l : List AudioTrack} {id : String} :
    findTrack l id = none ↔ ∀ t ∈ l, t.id ≠ id := by
  unfold findTrack
  rw [List.find?_eq_none]
  simp

theorem uniq_of_nodup {l : List AudioTrack}
    (hnd : (l.map (fun t => t.id)).Nodup) {t tr : AudioTrack}
    (ht : t ∈ l) (htr : tr ∈ l) (hid : t.id = tr.id) : t = tr :=
  List.inj_on_of_nodup_map hnd ht htr hid

theorem mem_updTrack_of_ne {l : List AudioTrack} {id : String} {f : AudioTrack → AudioTrack}
    {tr : AudioTrack} (h : tr ∈ l) (hne : tr.id ≠ id) : tr ∈ updTrack l id f := by
  unfold updTrack
  have : (if tr.id = id then f tr else tr) ∈ l.map (fun t => if t.id = id then f t else t) :=
    List.mem_map_of_mem _ h
  simpa [hne] using this

theorem mem_updTrack_iff {l : List AudioTrack} {id : String} {f : AudioTrack → AudioTrack}
    {x : AudioTrack} :
    x ∈ updTrack l id f ↔ ∃ tr ∈ l, x = if tr.id = id then f tr else tr := by
  unfold updTrack
  rw [List.mem_map]
  constructor
  · rintro ⟨tr, htr, rfl⟩; exact ⟨tr, htr, rfl⟩
  · rintro ⟨tr, htr, rfl⟩; exact ⟨tr, htr, rfl⟩

theorem srcOk_iff (nodes : List SourceNode) (t : AudioTrack) :
    srcOk nodes t = true ↔
      ∀ n : ℕ, t.sourceNode = some n →
        ∃ nd, nodes[n]? = some nd ∧ nd.trackId = t.id ∧ nd.stopped = false := by
  unfold srcOk
  cases h : t.sourceNode with
  | none => simp
  | some n =>
    cases h2 : nodes[n]? with
    | none => simp [h2]
    | some nd => simp [h2, Bool.and_eq_true, beq_iff_eq, Bool.not_eq_true']

theorem flagOk_iff (t : AudioTrack) :
    flagOk t = true ↔ t.isPlaying = t.sourceNode.isSome := by
  simp [flagOk]

theorem nodeOk_iff (tracks : List AudioTrack) (nodes : List SourceNode) (i : ℕ) :
    nodeOk tracks nodes i = true ↔
      ∀ nd, nodes[i]? = some nd → nd.stopped = false →
        ∃ t ∈ tracks, t.id = nd.trackId ∧ t.sourceNode = some i := by
  unfold nodeOk
  cases h : nodes[i]? with
  | none => simp
  | some nd =>
    simp only [h, Bool.or_eq_true, List.any_eq_true, Bool.and_eq_true, beq_iff_eq,
      Option.some.injEq, forall_eq']
    constructor
    · intro hd hsf
      rcases hd with hstop | hex
      · rw [hstop] at hsf; cases hsf
      · obtain ⟨tr, htr, h1, h2⟩ := hex
        exact ⟨tr, htr, h1, h2⟩
    · intro hf
      cases hs : nd.stopped with
      | true => exact Or.inl rfl
      | false =>
        obtain ⟨tr, htr, h1, h2⟩ := hf hs
        exact Or.inr ⟨tr, htr, h1, h2⟩

theorem EngineInv_parts {s s' : AudioEngine} (h1 : s'.audioTracks = s.audioTracks)
    (h2 : s'.nodes = s.nodes) : EngineInv s' ↔ EngineInv s := by
  unfold EngineInv
  rw [h1, h2]

/-- Case analysis on stopAudioTrack: a no-op (track absent, or no
current source), or the stop-and-clear update. -/
theorem stopAudioTrack_cases (s : AudioEngine) (id : String) :
    (findTrack s.audioTracks id = none ∧ s.stopAudioTrack id = s) ∨
    (∃ t, findTrack s.audioTracks id = some t ∧ t.sourceNode = none ∧
      s.stopAudioTrack id = s) ∨
    (∃ t n, findTrack s.audioTracks id = some t ∧ t.sourceNode = some n ∧
      s.stopAudioTrack id = { s with
        nodes := markStopped s.nodes n,
        audioTracks := updTrack s.audioTracks id
          (fun tr => { tr with sourceNode := none, isPlaying := false }) }) := by
  unfold AudioEngine.stopAudioTrack
  split
  · next heq => exact Or.inl ⟨heq, rfl⟩
  · next t heq =>
    split
    · next heq2 => exact Or.inr (Or.inl ⟨t, heq, heq2, rfl⟩)
    · next n heq2 => exact Or.inr (Or.inr ⟨t, n, heq, heq2, rfl⟩)

/-- Case analysis on playAudioTrack: a no-op (track absent or not
decoded), or the replace-and-start update. -/
theorem playAudioTrack_cases (s : AudioEngine) (id : String) :
    (findTrack s.audioTracks id = none ∧ s.playAudioTrack id = s) ∨
    (∃ t, findTrack s.audioTracks id = some t ∧ t.buffer = none ∧
      s.playAudioTrack id = s) ∨
    (∃ t d nodes1, findTrack s.audioTracks id = some t ∧ t.buffer = some d ∧
      ((t.sourceNode = none ∧ nodes1 = s.nodes) ∨
       (∃ n, t.sourceNode = some n ∧ nodes1 = markStopped s.nodes n)) ∧
      s.playAudioTrack id = { s with
        nodes := nodes1 ++
          [{ trackId := id, startOffset := s.masterClock.currentTime, stopped := false }],
        audioTracks := updTrack s.audioTracks id
          (fun tr => { tr with sourceNode := some nodes1.length, isPlaying := true }) }) := by
  unfold AudioEngine.playAudioTrack
  split
  · next heq => exact Or.inl ⟨heq, rfl⟩
  · next t heq =>
    split
    · next heq2 => exact Or.inr (Or.inl ⟨t, heq, heq2, rfl⟩)
    · next d heq2 =>
      cases hsn : t.sourceNode with
      | none =>
        refine Or.inr (Or.inr ⟨t, d, s.nodes, heq, heq2, Or.inl ⟨hsn, rfl⟩, ?_⟩)
        simp only [hsn]
      | some n =>
        refine Or.inr (Or.inr ⟨t, d, markStopped s.nodes n, heq, heq2,
          Or.inr ⟨n, hsn, rfl⟩, ?_⟩)
        simp only [hsn]

/-- stopAudioTrack changes neither the routing, the clock, the recorded
time base, nor the fetch log. -/
theorem stopAudioTrack_ctrl (s : AudioEngine) (id : String) :
    (s.stopAudioTrack id).currentRouting = s.currentRouting ∧
    (s.stopAudioTrack id).masterClock = s.masterClock ∧
    (s.stopAudioTrack id).playStartContextTime = s.playStartContextTime ∧
    (s.stopAudioTrack id).playStartOffset = s.playStartOffset ∧
    (s.stopAudioTrack id).fetchesStarted = s.fetchesStarted := by
  rcases stopAudioTrack_cases s id with ⟨_, he⟩ | ⟨t, _, _, he⟩ | ⟨t, n, _, _, he⟩ <;>
    rw [he] <;> exact ⟨rfl, rfl, rfl, rfl, rfl⟩

/-- playAudioTrack changes neither the routing, the clock, the recorded
time base, nor the fetch log. -/
theorem playAudioTrack_ctrl (s : AudioEngine) (id : String) :
    (s.playAudioTrack id).currentRouting = s.currentRouting ∧
    (s.playAudioTrack id).masterClock = s.masterClock ∧
    (s.playAudioTrack id).playStartContextTime = s.playStartContextTime ∧
    (s.playAudioTrack id).playStartOffset = s.playStartOffset ∧
    (s.playAudioTrack id).fetchesStarted = s.fetchesStarted := by
  rcases playAudioTrack_cases s id with ⟨_, he⟩ | ⟨t, _, _, he⟩ | ⟨t, d, n1, _, _, _, he⟩ <;>
    rw [he] <;> exact ⟨rfl, rfl, rfl, rfl, rfl⟩

theorem stopAudioTrack_ids (s : AudioEngine) (id : String) :
    (s.stopAudioTrack id).audioTracks.map (fun t => t.id) =
      s.audioTracks.map (fun t => t.id) := by
  rcases stopAudioTrack_cases s id with ⟨_, he⟩ | ⟨t, _, _, he⟩ | ⟨t, n, _, _, he⟩ <;>
    rw [he] <;> first
      | rfl
      | exact updTrack_map_id _ _ _ (fun tr => rfl)

theorem playAudioTrack_ids (s : AudioEngine) (id : String) :
    (s.playAudioTrack id).audioTracks.map (fun t => t.id) =
      s.audioTracks.map (fun t => t.id) := by
  rcases playAudioTrack_cases s id with ⟨_, he⟩ | ⟨t, _, _, he⟩ | ⟨t, d, n1, _, _, _, he⟩ <;>
    rw [he] <;> first
      | rfl
      | exact updTrack_map_id _ _ _ (fun tr => rfl)

/-- Stopping the referenced node of a found track preserves the engine
invariant (list level). -/
theorem invL_stop {tracks : List AudioTrack} {nodes : List SourceNode}
    (h : InvL tracks nodes) {id : String} {t : AudioTrack} {n : ℕ}
    (hf : findTrack tracks id = some t) (hsn : t.sourceNode = some n) :
    InvL (updTrack tracks id (fun tr => { tr with sourceNode := none, isPlaying := false }))
      (markStopped nodes n) := by
  obtain ⟨hnd, hTr, hNd⟩ := h
  obtain ⟨htmem, htid⟩ := findTrack_some hf
  obtain ⟨nd0, hnd0, hnd0id, hnd0stop⟩ := (srcOk_iff nodes t).mp (hTr t htmem).1 n hsn
  refine ⟨?_, ?_, ?_⟩
  · rw [updTrack_map_id tracks id
      (fun tr => { tr with sourceNode := none, isPlaying := false }) (fun tr => rfl)]
    exact hnd
  · intro tr' htr'
    rcases mem_updTrack_iff.mp htr' with ⟨tr, htr, hform⟩
    by_cases hid : tr.id = id
    · rw [hform, if_pos hid]
      refine ⟨?_, by simp [flagOk]⟩
      rw [srcOk_iff]
      intro m hm
      simp at hm
    · rw [hform, if_neg hid]
      have hold := hTr tr htr
      refine ⟨?_, hold.2⟩
      rw [srcOk_iff]
      intro m hm
      obtain ⟨nd, hgetm, hndid, hndstop⟩ := (srcOk_iff nodes tr).mp hold.1 m hm
      have hmn : m ≠ n := by
        intro hEq
        subst hEq
        rw [hgetm] at hnd0
        cases hnd0
        apply hid
        rw [← hndid, hnd0id, htid]
      refine ⟨nd, ?_, hndid, hndstop⟩
      rw [markStopped_idx, if_neg hmn]
      exact hgetm
  · intro i hi
    rw [nodeOk_iff]
    intro nd hget hstop
    rw [markStopped_idx] at hget
    by_cases hin : i = n
    · rw [if_pos hin, hnd0] at hget
      cases hget
      cases hstop
    · rw [if_neg hin] at hget
      have hi' : i ∈ List.range nodes.length := by
        rw [List.mem_range] at hi ⊢
        rwa [markStopped_length] at hi
      obtain ⟨tr, htr, hid2, hsrc2⟩ := (nodeOk_iff tracks nodes i).mp (hNd i hi') nd hget hstop
      by_cases hid3 : tr.id = id
      · have hteq : tr = t := uniq_of_nodup hnd htr htmem (by rw [hid3, htid])
        rw [hteq, hsn] at hsrc2
        have : n = i := by injection hsrc2
        exact absurd this.symm hin
      · exact ⟨tr, mem_updTrack_of_ne htr hid3, hid2, hsrc2⟩

/-- Starting a fresh node for a found track, after stopping its previous
node if any, preserves the engine invariant (list level). -/
theorem invL_play {tracks : List AudioTrack} {nodes : List SourceNode}
    (h : InvL tracks nodes) {id : String} {t : AudioTrack}
    (hf : findTrack tracks id = some t) {nodes1 : List SourceNode}
    (hn1 : (t.sourceNode = none ∧ nodes1 = nodes) ∨
      (∃ n, t.sourceNode = some n ∧ nodes1 = markStopped nodes n)) (off : ℚ) :
    InvL
      (updTrack tracks id
        (fun tr => { tr with sourceNode := some nodes1.length, isPlaying := true }))
      (nodes1 ++ [{ trackId := id, startOffset := off, stopped := false }]) := by
  obtain ⟨hnd, hTr, hNd⟩ := h
  obtain ⟨htmem, htid⟩ := findTrack_some hf
  have hlive1 : ∀ (i : ℕ) (nd : SourceNode), nodes1[i]? = some nd → nd.stopped = false →
      nodes[i]? = some nd := by
    intro i nd hget hstop
    rcases hn1 with ⟨_, rfl⟩ | ⟨n, hsn, rfl⟩
    · exact hget
    · rw [markStopped_idx] at hget
      by_cases hin : i = n
      · rw [if_pos hin] at hget
        cases h0 : nodes[n]? with
        | none => rw [h0] at hget; cases hget
        | some nd0 =>
          rw [h0] at hget
          cases hget
          cases hstop
      · rw [if_neg hin] at hget
        exact hget
  have hother : ∀ (i : ℕ) (nd : SourceNode), nodes[i]? = some nd → nd.trackId ≠ t.id →
      nodes1[i]? = some nd := by
    intro i nd hget hne
    rcases hn1 with ⟨_, rfl⟩ | ⟨n, hsn, rfl⟩
    · exact hget
    · obtain ⟨nd0, hnd0, hnd0id, _⟩ := (srcOk_iff nodes t).mp (hTr t htmem).1 n hsn
      have hin : i ≠ n := by
        intro hEq
        subst hEq
        rw [hget] at hnd0
        cases hnd0
        exact hne hnd0id
      rw [markStopped_idx, if_neg hin]
      exact hget
  refine ⟨?_, ?_, ?_⟩
  · rw [updTrack_map_id tracks id
      (fun tr => { tr with sourceNode := some nodes1.length, isPlaying := true })
      (fun tr => rfl)]
    exact hnd
  · intro tr' htr'
    rcases mem_updTrack_iff.mp htr' with ⟨tr, htr, hform⟩
    by_cases hid : tr.id = id
    · rw [hform, if_pos hid]
      refine ⟨?_, by simp [flagOk]⟩
      rw [srcOk_iff]
      intro m hm
      have hm' : nodes1.length = m := by simpa using hm
      subst hm'
      refine ⟨{ trackId := id, startOffset := off, stopped := false },
        List.getElem?_concat_length _ _, ?_, rfl⟩
      simpa using hid.symm
    · rw [hform, if_neg hid]
      have hold := hTr tr htr
      refine ⟨?_, hold.2⟩
      rw [srcOk_iff]
      intro m hm
      obtain ⟨nd, hgetm, hndid, hndstop⟩ := (srcOk_iff nodes tr).mp hold.1 m hm
      have hnd1 : nodes1[m]? = some nd := by
        refine hother m nd hgetm ?_
        rw [hndid, htid]
        exact hid
      have hmlt : m < nodes1.length := (List.getElem?_eq_some.mp hnd1).1
      exact ⟨nd, by rw [List.getElem?_append_left hmlt]; exact hnd1, hndid, hndstop⟩
  · intro i hi
    rw [nodeOk_iff]
    intro nd hget hstop
    by_cases hilast : i = nodes1.length
    · subst hilast
      rw [List.getElem?_concat_length] at hget
      cases hget
      refine ⟨{ t with sourceNode := some nodes1.length, isPlaying := true }, ?_, ?_, rfl⟩
      · refine mem_updTrack_iff.mpr ⟨t, htmem, ?_⟩
        rw [if_pos htid]
      · simpa using htid
    · have hilt : i < nodes1.length := by
        rw [List.mem_range] at hi
        simp only [List.length_append, List.length_cons, List.length_nil] at hi
        omega
      rw [List.getElem?_append_left hilt] at hget
      have hgetold : nodes[i]? = some nd := hlive1 i nd hget hstop
      have hiold : i ∈ List.range nodes.length :=
        List.mem_range.mpr (List.getElem?_eq_some.mp hgetold).1
      obtain ⟨tr, htr, hid2, hsrc2⟩ := (nodeOk_iff tracks nodes i).mp (hNd i hiold) nd hgetold hstop
      by_cases hid3 : tr.id = id
      · have hteq : tr = t := uniq_of_nodup hnd htr htmem (by rw [hid3, htid])
        subst hteq
        rcases hn1 with ⟨hsn0, heq1⟩ | ⟨n, hsn0, heq1⟩
        · rw [hsn0] at hsrc2
          cases hsrc2
        · rw [hsn0] at hsrc2
          have hni : n = i := by injection hsrc2
          subst hni
          rw [heq1, markStopped_idx, if_pos rfl, hgetold] at hget
          have hc := congrArg SourceNode.stopped (Option.some.inj hget)
          rw [hstop] at hc
          cases hc
      · exact ⟨tr, mem_updTrack_of_ne htr hid3, hid2, hsrc2⟩

/-- stopAudioTrack preserves the engine invariant. -/
theorem inv_stopAudioTrack {s : AudioEngine} (id : String) (h : EngineInv s) :
    EngineInv (s.stopAudioTrack id) := by
  rcases stopAudioTrack_cases s id with ⟨_, he⟩ | ⟨t, _, _, he⟩ | ⟨t, n, hf, hsn, he⟩
  · rw [he]; exact h
  · rw [he]; exact h
  · rw [he]; exact invL_stop h hf hsn

/-- playAudioTrack preserves the engine invariant. -/
theorem inv_playAudioTrack {s : AudioEngine} (id : String) (h : EngineInv s) :
    EngineInv (s.playAudioTrack id) := by
  rcases playAudioTrack_cases s id with ⟨_, he⟩ | ⟨t, _, _, he⟩ |
    ⟨t, d, nodes1, hf, hbuf, hn1, he⟩
  · rw [he]; exact h
  · rw [he]; exact h
  · rw [he]; exact invL_play h hf hn1 s.masterClock.currentTime

theorem inv_foldStop (ids : List String) (s : AudioEngine) (h : EngineInv s) :
    EngineInv (ids.foldl (fun acc id => acc.stopAudioTrack id) s) := by
  induction ids generalizing s with
  | nil => exact h
  | cons hd tl ih =>
    simp only [List.foldl_cons]
    exact ih _ (inv_stopAudioTrack hd h)

theorem inv_foldStopCond (sel : List String) (ids : List String) (s : AudioEngine)
    (h : EngineInv s) :
    EngineInv (ids.foldl
      (fun acc id => if id ∈ sel then acc else acc.stopAudioTrack id) s) := by
  induction ids generalizing s with
  | nil => exact h
  | cons hd tl ih =>
    simp only [List.foldl_cons]
    by_cases hm : hd ∈ sel
    · rw [if_pos hm]
      exact ih _ h
    · rw [if_neg hm]
      exact ih _ (inv_stopAudioTrack hd h)

theorem inv_stopAllTracks {s : AudioEngine} (h : EngineInv s) : EngineInv s.stopAllTracks :=
  inv_foldStop _ _ h

/-- Updating only clock fields leaves the invariant untouched. -/
theorem EngineInv_mkUpdate (u : AudioEngine) (c : MasterClock) (a : Option ℚ) (b : ℚ) :
    EngineInv (AudioEngine.mk u.audioTracks u.currentRouting c a b u.nodes u.fetchesStarted)
      ↔ EngineInv u :=
  EngineInv_parts rfl rfl

theorem inv_pauseAll {s : AudioEngine} (now : ℚ) (h : EngineInv s) :
    EngineInv (s.pauseAll now) := by
  have h1 := inv_stopAllTracks h
  simp only [AudioEngine.pauseAll]
  split
  · exact (EngineInv_parts rfl rfl).mpr ((EngineInv_parts rfl rfl).mpr h1)
  · exact (EngineInv_parts rfl rfl).mpr h1

theorem inv_playAll {s : AudioEngine} (now : ℚ) (h : EngineInv s) :
    EngineInv (s.playAll now) := by
  have hs1 : EngineInv (match s.currentRouting.left with
      | some l => if l.type = SrcType.audio then s.playAudioTrack l.id else s
      | none => s) := by
    rcases hlo : s.currentRouting.left with _ | l
    · exact h
    · by_cases hl : l.type = SrcType.audio
      · simp only [if_pos hl]
        exact inv_playAudioTrack _ h
      · simp only [if_neg hl]
        exact h
  simp only [AudioEngine.playAll]
  rw [EngineInv_mkUpdate]
  split
  · split_ifs with hg
    · exact inv_playAudioTrack _ hs1
    · exact hs1
  · exact hs1

theorem inv_seekAll {s : AudioEngine} (time nowPause nowPlay : ℚ) (h : EngineInv s) :
    EngineInv (s.seekAll time nowPause nowPlay) := by
  simp only [AudioEngine.seekAll]
  split_ifs with hp
  · exact inv_playAll _ (inv_pauseAll _ ((EngineInv_parts rfl rfl).mpr h))
  · exact (EngineInv_parts rfl rfl).mpr h

/-- The restart phase of setRouting preserves the engine invariant. -/
theorem inv_restartSelected (routing : AudioRouting) (u : AudioEngine) (h : EngineInv u) :
    EngineInv (u.restartSelected routing) := by
  simp only [AudioEngine.restartSelected]
  have h4 : EngineInv (match routing.left with
      | some l => if l.type = SrcType.audio ∧ l.id ≠ ("") then u.playAudioTrack l.id else u
      | none => u) := by
    split
    · split_ifs with hl
      · exact inv_playAudioTrack _ h
      · exact h
    · exact h
  split
  · split_ifs with hg
    · exact inv_playAudioTrack _ h4
    · exact h4
  · exact h4

theorem inv_setRouting {s : AudioEngine} (routing : AudioRouting) (now : ℚ)
    (h : EngineInv s) : EngineInv (s.setRouting routing now) := by
  have h1 : EngineInv { s with currentRouting := routing } :=
    (EngineInv_parts rfl rfl).mpr h
  have h2 : EngineInv
      ((({ s with currentRouting := routing }).audioTracks.map
          (fun (t : AudioTrack) => t.id)).foldl
        (fun (acc : AudioEngine) (id : String) =>
          if id ∈ selectedAudioIds routing then acc else acc.stopAudioTrack id)
        { s with currentRouting := routing }) :=
    inv_foldStopCond _ _ _ h1
  simp only [AudioEngine.setRouting]
  split_ifs with hw
  · rw [EngineInv_mkUpdate]
    exact inv_restartSelected routing _ ((EngineInv_parts rfl rfl).mpr h2)
  · exact h2

theorem atMostOne_of_inv {s : AudioEngine} (h : EngineInv s) : atMostOneActive s := by
  obtain ⟨hnd, hTr, hNd⟩ := h
  intro i j ndi ndj hi hj hsi hsj hid
  obtain ⟨ti, hti, htiid, htisrc⟩ := (nodeOk_iff _ _ i).mp
    (hNd i (List.mem_range.mpr (List.getElem?_eq_some.mp hi).1)) ndi hi hsi
  obtain ⟨tj, htj, htjid, htjsrc⟩ := (nodeOk_iff _ _ j).mp
    (hNd j (List.mem_range.mpr (List.getElem?_eq_some.mp hj).1)) ndj hj hsj
  have hteq : ti = tj := uniq_of_nodup hnd hti htj (by rw [htiid, htjid, hid])
  rw [hteq, htjsrc] at htisrc
  exact (Option.some.inj htisrc).symm

theorem playAudioTrack_nodesLen (s : AudioEngine) (id : String) :
    (s.playAudioTrack id).nodes.length ≤ s.nodes.length + 1 := by
  rcases playAudioTrack_cases s id with ⟨_, he⟩ | ⟨t, _, _, he⟩ |
    ⟨t, d, n1, _, _, hn1, he⟩ <;> rw [he]
  · omega
  · omega
  · have hl : n1.length = s.nodes.length := by
      rcases hn1 with ⟨_, rfl⟩ | ⟨n, _, rfl⟩
      · rfl
      · exact markStopped_length _ _
    simp [hl]

/-- When both endpoints coincide, playAll creates at most one new source
node: the right start is skipped by the id guard. -/
theorem playAll_len_same_routing (s : AudioEngine) (now : ℚ)
    (h : s.currentRouting.left = s.currentRouting.right) :
    (s.playAll now).nodes.length ≤ s.nodes.length + 1 := by
  simp only [AudioEngine.playAll, ← h]
  rcases hlo : s.currentRouting.left with _ | l
  · simp
  · simp only
    have hguard : ¬(l.type = SrcType.audio ∧
        (some l).map (fun (x : AudioSource) => x.id) ≠ some l.id) := by
      rintro ⟨_, hb⟩
      exact hb (by simp)
    rw [if_neg hguard]
    split_ifs with hl
    · exact playAudioTrack_nodesLen s l.id
    · simp

/-! ### Liveness of source nodes across the operations -/

theorem mem_markStopped {l : List SourceNode} {n : ℕ} {nd' : SourceNode}
    (h : nd' ∈ markStopped l n) :
    ∃ nd ∈ l, nd' = nd ∨ nd' = { nd with stopped := true } := by
  rcases mem_iff_idx.mp h with ⟨i, hi⟩
  rw [markStopped_idx] at hi
  by_cases hin : i = n
  · rw [if_pos hin] at hi
    cases h0 : l[n]? with
    | none => rw [h0] at hi; cases hi
    | some nd =>
      rw [h0] at hi
      have hform : nd' = { nd with stopped := true } := by
        injection hi with hh
        exact hh.symm
      exact ⟨nd, mem_iff_idx.mpr ⟨n, h0⟩, Or.inr hform⟩
  · rw [if_neg hin] at hi
    exact ⟨nd', mem_iff_idx.mpr ⟨i, hi⟩, Or.inl rfl⟩

theorem noLive_markStopped {l : List SourceNode} {n : ℕ} {id : String}
    (h : noLive l id) : noLive (markStopped l n) id := by
  intro nd' hmem hid
  rcases mem_markStopped hmem with ⟨nd, hnd, hcase⟩
  rcases hcase with rfl | rfl
  · exact h _ hnd hid
  · rfl

theorem noLive_stopAudioTrack {s : AudioEngine} {id id' : String}
    (h : noLive s.nodes id') : noLive (s.stopAudioTrack id).nodes id' := by
  rcases stopAudioTrack_cases s id with ⟨_, he⟩ | ⟨t, _, _, he⟩ | ⟨t, n, _, _, he⟩ <;> rw [he]
  · exact h
  · exact h
  · exact noLive_markStopped h

/-- After stopAudioTrack id, no live node of id remains (under the
engine invariant: the stopped node was the only live one). -/
theorem stop_makes_noLive {s : AudioEngine} (id : String) (hInv : EngineInv s) :
    noLive (s.stopAudioTrack id).nodes id := by
  obtain ⟨hnd, hTr, hNd⟩ := hInv
  rcases stopAudioTrack_cases s id with ⟨hfn, he⟩ | ⟨t, hf, hsn, he⟩ | ⟨t, n, hf, hsn, he⟩ <;>
    rw [he]
  · intro nd hmem hid
    cases hcs : nd.stopped with
    | true => rfl
    | false =>
      exfalso
      rcases mem_iff_idx.mp hmem with ⟨i, hi⟩
      obtain ⟨tr, htr, hid2, _⟩ := (nodeOk_iff _ _ i).mp
        (hNd i (List.mem_range.mpr (List.getElem?_eq_some.mp hi).1)) nd hi hcs
      exact (findTrack_eq_none.mp hfn tr htr) (by rw [hid2, hid])
  · intro nd hmem hid
    cases hcs : nd.stopped with
    | true => rfl
    | false =>
      exfalso
      rcases mem_iff_idx.mp hmem with ⟨i, hi⟩
      obtain ⟨tr, htr, hid2, hsrc2⟩ := (nodeOk_iff _ _ i).mp
        (hNd i (List.mem_range.mpr (List.getElem?_eq_some.mp hi).1)) nd hi hcs
      obtain ⟨htmem, htid⟩ := findTrack_some hf
      have hteq : tr = t := uniq_of_nodup hnd htr htmem (by rw [hid2, hid, htid])
      rw [hteq, hsn] at hsrc2
      cases hsrc2
  · intro nd hmem hid
    cases hcs : nd.stopped with
    | true => rfl
    | false =>
      exfalso
      rcases mem_iff_idx.mp hmem with ⟨i, hi⟩
      have hi' : (markStopped s.nodes n)[i]? = some nd := hi
      rw [markStopped_idx] at hi'
      by_cases hin : i = n
      · rw [if_pos hin] at hi'
        cases h0 : s.nodes[n]? with
        | none => rw [h0] at hi'; cases hi'
        | some nd0 =>
          rw [h0] at hi'
          cases hi'
          cases hcs
      · rw [if_neg hin] at hi'
        obtain ⟨tr, htr, hid2, hsrc2⟩ := (nodeOk_iff _ _ i).mp
          (hNd i (List.mem_range.mpr (List.getElem?_eq_some.mp hi').1)) nd hi' hcs
        obtain ⟨htmem, htid⟩ := findTrack_some hf
        have hteq : tr = t := uniq_of_nodup hnd htr htmem (by rw [hid2, hid, htid])
        rw [hteq, hsn] at hsrc2
        have hni : n = i := by injection hsrc2
        exact hin hni.symm

theorem foldCond_noLive_mono (sel ids : List String) (s : AudioEngine)
    {id' : String} (h : noLive s.nodes id') :
    noLive ((ids.foldl
      (fun acc id => if id ∈ sel then acc else acc.stopAudioTrack id) s)).nodes id' := by
  induction ids generalizing s with
  | nil => exact h
  | cons hd tl ih =>
    simp only [List.foldl_cons]
    by_cases hm : hd ∈ sel
    · rw [if_pos hm]
      exact ih _ h
    · rw [if_neg hm]
      exact ih _ (noLive_stopAudioTrack h)

theorem foldCond_noLive (sel ids : List String) (s : AudioEngine) (hInv : EngineInv s)
    {id' : String} (hmem : id' ∈ ids) (hns : id' ∉ sel) :
    noLive ((ids.foldl
      (fun acc id => if id ∈ sel then acc else acc.stopAudioTrack id) s)).nodes id' := by
  induction ids generalizing s with
  | nil => cases hmem
  | cons hd tl ih =>
    simp only [List.foldl_cons]
    rcases List.mem_cons.mp hmem with rfl | hmem'
    · rw [if_neg hns]
      exact foldCond_noLive_mono sel tl _ (stop_makes_noLive _ hInv)
    · by_cases hm : hd ∈ sel
      · rw [if_pos hm]
        exact ih _ hInv hmem'
      · rw [if_neg hm]
        exact ih _ (inv_stopAudioTrack hd hInv) hmem'

theorem noLive_playAudioTrack {s : AudioEngine} {id id' : String} (hne : id' ≠ id)
    (h : noLive s.nodes id') : noLive (s.playAudioTrack id).nodes id' := by
  rcases playAudioTrack_cases s id with ⟨_, he⟩ | ⟨t, _, _, he⟩ |
    ⟨t, d, n1, hf, hbuf, hn1, he⟩ <;> rw [he]
  · exact h
  · exact h
  · intro nd hmem hid
    rcases List.mem_append.mp hmem with hin1 | hlast
    · have hn1noLive : noLive n1 id' := by
        rcases hn1 with ⟨_, rfl⟩ | ⟨n, _, rfl⟩
        · exact h
        · exact noLive_markStopped h
      exact hn1noLive nd hin1 hid
    · rw [List.mem_singleton] at hlast
      subst hlast
      exact absurd hid.symm hne

/-- playAudioTrack of a loaded track creates a live node started at the
current master time. -/
theorem play_makes_live {s : AudioEngine} {id : String} {t : AudioTrack} {d : ℚ}
    (hf : findTrack s.audioTracks id = some t) (hbuf : t.buffer = some d) :
    liveAt (s.playAudioTrack id).nodes id s.masterClock.currentTime := by
  rcases playAudioTrack_cases s id with ⟨hfn, _⟩ | ⟨t2, hf2, hb2, _⟩ |
    ⟨t2, d2, n1, hf2, hb2, hn1, he⟩
  · rw [hf] at hfn
    cases hfn
  · rw [hf] at hf2
    cases hf2
    rw [hbuf] at hb2
    cases hb2
  · rw [he]
    exact ⟨_, List.mem_append_right _ (List.mem_singleton.mpr rfl), rfl, rfl, rfl⟩

/-- playAudioTrack of one id preserves live nodes of other ids. -/
theorem play_preserves_live {s : AudioEngine} {id id' : String} (hInv : EngineInv s)
    (hne : id' ≠ id) {t0 : ℚ} (h : liveAt s.nodes id' t0) :
    liveAt (s.playAudioTrack id).nodes id' t0 := by
  rcases playAudioTrack_cases s id with ⟨_, he⟩ | ⟨t, _, _, he⟩ |
    ⟨t, d, n1, hf, hbuf, hn1, he⟩ <;> rw [he]
  · exact h
  · exact h
  · obtain ⟨nd, hmem, hid, hstop, hoff⟩ := h
    rcases mem_iff_idx.mp hmem with ⟨i, hi⟩
    have hn1i : n1[i]? = some nd := by
      rcases hn1 with ⟨_, rfl⟩ | ⟨n, hsn, rfl⟩
      · exact hi
      · obtain ⟨hnd, hTr, hNd⟩ := hInv
        obtain ⟨htmem, htid⟩ := findTrack_some hf
        obtain ⟨nd0, hnd0, hnd0id, _⟩ := (srcOk_iff s.nodes t).mp (hTr t htmem).1 n hsn
        have hin : i ≠ n := by
          intro hEq
          subst hEq
          rw [hi] at hnd0
          cases hnd0
          exact hne (by rw [← hid, hnd0id]; exact htid)
        rw [markStopped_idx, if_neg hin]
        exact hi
    have hlt : i < n1.length := (List.getElem?_eq_some.mp hn1i).1
    exact ⟨nd, mem_iff_idx.mpr ⟨i, by rw [List.getElem?_append_left hlt]; exact hn1i⟩,
      hid, hstop, hoff⟩

theorem stopAudioTrack_tracks_cases (s : AudioEngine) (id : String) :
    (s.stopAudioTrack id).audioTracks = s.audioTracks ∨
    (s.stopAudioTrack id).audioTracks =
      updTrack s.audioTracks id (fun tr => { tr with sourceNode := none, isPlaying := false }) := by
  rcases stopAudioTrack_cases s id with ⟨_, he⟩ | ⟨t, _, _, he⟩ | ⟨t, n, _, _, he⟩ <;> rw [he]
  · exact Or.inl rfl
  · exact Or.inl rfl
  · exact Or.inr rfl

theorem stop_find_ne {s : AudioEngine} {id id' : String} (hne : id' ≠ id) :
    findTrack (s.stopAudioTrack id).audioTracks id' = findTrack s.audioTracks id' := by
  rcases stopAudioTrack_tracks_cases s id with he | he <;> rw [he]
  rw [findTrack_updTrack s.audioTracks id
    (fun tr => { tr with sourceNode := none, isPlaying := false }) (fun tr => rfl)]
  cases hfq : findTrack s.audioTracks id' with
  | none => rfl
  | some tq =>
    have hq := (findTrack_some hfq).2
    rw [Option.map_some', if_neg (by rw [hq]; exact hne)]

theorem foldCond_find_sel (sel ids : List String) (s : AudioEngine)
    {id' : String} (hsel : id' ∈ sel) :
    findTrack ((ids.foldl
      (fun acc id => if id ∈ sel then acc else acc.stopAudioTrack id) s)).audioTracks id' =
      findTrack s.audioTracks id' := by
  induction ids generalizing s with
  | nil => rfl
  | cons hd tl ih =>
    simp only [List.foldl_cons]
    by_cases hm : hd ∈ sel
    · rw [if_pos hm, ih]
    · rw [if_neg hm, ih]
      exact stop_find_ne (fun hEq => hm (hEq ▸ hsel))

theorem foldCond_ctrl (sel ids : List String) (s : AudioEngine) :
    ((ids.foldl
      (fun acc id => if id ∈ sel then acc else acc.stopAudioTrack id) s)).masterClock =
        s.masterClock ∧
    ((ids.foldl
      (fun acc id => if id ∈ sel then acc else acc.stopAudioTrack id) s)).currentRouting =
        s.currentRouting := by
  induction ids generalizing s with
  | nil => exact ⟨rfl, rfl⟩
  | cons hd tl ih =>
    simp only [List.foldl_cons]
    by_cases hm : hd ∈ sel
    · rw [if_pos hm]
      exact ih _
    · rw [if_neg hm]
      obtain ⟨h1, h2⟩ := ih (s.stopAudioTrack hd)
      obtain ⟨c1, c2, _, _, _⟩ := stopAudioTrack_ctrl s hd
      exact ⟨h1.trans c2, h2.trans c1⟩

theorem play_find_buffer (s : AudioEngine) (id idq : String) :
    (findTrack (s.playAudioTrack id).audioTracks idq).map (fun t => t.buffer) =
      (findTrack s.audioTracks idq).map (fun t => t.buffer) := by
  rcases playAudioTrack_cases s id with ⟨_, he⟩ | ⟨t, _, _, he⟩ |
    ⟨t, d, n1, _, _, hn1, he⟩
  · rw [he]
  · rw [he]
  · rw [he]
    show (findTrack (updTrack s.audioTracks id
        (fun tr => { tr with sourceNode := some n1.length, isPlaying := true }))
          idq).map (fun t => t.buffer) = _
    rw [findTrack_updTrack s.audioTracks id
      (fun tr => { tr with sourceNode := some n1.length, isPlaying := true })
      (fun tr => rfl)]
    cases hfq : findTrack s.audioTracks idq with
    | none => rfl
    | some tq =>
      simp only [Option.map_some']
      by_cases hq : tq.id = id <;> simp [hq]

/-! ### Video manager helper lemmas -/

@[simp] theorem getPlayer_top (vm : VideoManager) :
    vm.getPlayer VideoPos.top = vm.topPlayer := rfl

@[simp] theorem getPlayer_bottom (vm : VideoManager) :
    vm.getPlayer VideoPos.bottom = vm.bottomPlayer := rfl

@[simp] theorem getSource_top (vm : VideoManager) :
    vm.getSource VideoPos.top = vm.topVideoSource := rfl

@[simp] theorem getSource_bottom (vm : VideoManager) :
    vm.getSource VideoPos.bottom = vm.bottomVideoSource := rfl

@[simp] theorem getPending_top (vm : VideoManager) :
    vm.getPending VideoPos.top = vm.pendingTop := rfl

@[simp] theorem getPending_bottom (vm : VideoManager) :
    vm.getPending VideoPos.bottom = vm.pendingBottom := rfl

@[simp] theorem setPlayer_top (vm : VideoManager) (pl : SimPlayer) :
    vm.setPlayer VideoPos.top pl = { vm with topPlayer := some pl } := rfl

@[simp] theorem setPlayer_bottom (vm : VideoManager) (pl : SimPlayer) :
    vm.setPlayer VideoPos.bottom pl = { vm with bottomPlayer := some pl } := rfl

@[simp] theorem setPending_top (vm : VideoManager) (b : Bool) :
    vm.setPending VideoPos.top b = { vm with pendingTop := b } := rfl

@[simp] theorem setPending_bottom (vm : VideoManager) (b : Bool) :
    vm.setPending VideoPos.bottom b = { vm with pendingBottom := b } := rfl

/-- applySeekWithOffset on a loaded position. -/
theorem applySeek_active (vm : VideoManager) (p : VideoPos) (m : ℚ) (pl : SimPlayer)
    (hpl : vm.getPlayer p = some pl) :
    vm.applySeekWithOffset p m =
      (vm.setPlayer p (pl.seek (vm.calculateTargetTime p m)),
       [VCmd.seekCmd p (vm.calculateTargetTime p m)]) := by
  unfold VideoManager.applySeekWithOffset
  rw [hpl]

/-- applySeekWithOffset on an empty position. -/
theorem applySeek_none (vm : VideoManager) (p : VideoPos) (m : ℚ)
    (hpl : vm.getPlayer p = none) :
    vm.applySeekWithOffset p m = (vm, []) := by
  unfold VideoManager.applySeekWithOffset
  rw [hpl]

/-- Decomposition of one syncToMaster iteration for an active position. -/
theorem syncPosition_active (vm : VideoManager) (p : VideoPos) (m : ℚ)
    (pl : SimPlayer) (src : VideoSourceCfg)
    (hpl : vm.getPlayer p = some pl) (hsrc : vm.getSource p = some src) :
    vm.syncPosition p m =
      (let r1 := if |pl.currentTime - vm.getOffsetFor p - m| >
          VideoManager.getSyncThreshold pl then vm.applySeekWithOffset p m else (vm, []);
       let r2 := if vm.calculateTargetTime p m ≥ 0 ∧
          ((r1.1.getPlayer p).map (fun q => q.paused) = some true) ∧
          r1.1.getPending p = false then
          match r1.1.getPlayer p with
          | some q => (r1.1.setPlayer p q.play, [VCmd.playCmd p])
          | none => (r1.1, ([] : List VCmd))
        else (r1.1, ([] : List VCmd));
       (r2.1, r1.2 ++ r2.2)) := by
  unfold VideoManager.syncPosition
  rw [hpl, hsrc]

/-- syncPosition on a position without player or source is a no-op. -/
theorem syncPosition_inactive (vm : VideoManager) (p : VideoPos) (m : ℚ)
    (h : vm.getPlayer p = none ∨ vm.getSource p = none) :
    vm.syncPosition p m = (vm, []) := by
  unfold VideoManager.syncPosition
  rcases h with h | h
  · rw [h]
  · rw [h]
    rcases hpl : vm.getPlayer p with _ | pl <;> rfl

@[simp] theorem setPlayer_getPlayer_self (vm : VideoManager) (p : VideoPos) (pl : SimPlayer) :
    (vm.setPlayer p pl).getPlayer p = some pl := by
  cases p <;> rfl

@[simp] theorem setPlayer_getSource (vm : VideoManager) (p q : VideoPos) (pl : SimPlayer) :
    (vm.setPlayer p pl).getSource q = vm.getSource q := by
  cases p <;> cases q <;> rfl

@[simp] theorem setPlayer_getPending (vm : VideoManager) (p q : VideoPos) (pl : SimPlayer) :
    (vm.setPlayer p pl).getPending q = vm.getPending q := by
  cases p <;> cases q <;> rfl

theorem setPlayer_getPlayer_other (vm : VideoManager) (p q : VideoPos) (pl : SimPlayer)
    (h : q ≠ p) : (vm.setPlayer p pl).getPlayer q = vm.getPlayer q := by
  cases p <;> cases q <;> first | rfl | exact absurd rfl h

@[simp] theorem setPending_getPlayer (vm : VideoManager) (p q : VideoPos) (b : Bool) :
    (vm.setPending p b).getPlayer q = vm.getPlayer q := by
  cases p <;> cases q <;> rfl

@[simp] theorem setPending_getSource (vm : VideoManager) (p q : VideoPos) (b : Bool) :
    (vm.setPending p b).getSource q = vm.getSource q := by
  cases p <;> cases q <;> rfl

@[simp] theorem setPending_getPending_self (vm : VideoManager) (p : VideoPos) (b : Bool) :
    (vm.setPending p b).getPending p = b := by
  cases p <;> rfl

theorem getOffsetFor_congr {vm vm' : VideoManager} {p : VideoPos}
    (h : vm'.getSource p = vm.getSource p) : vm'.getOffsetFor p = vm.getOffsetFor p := by
  unfold VideoManager.getOffsetFor
  rw [h]

/-- A corrective seek is emitted by the per-position sync step exactly
when the drift exceeds the per-kind threshold. -/
theorem syncPosition_seek_iff (vm : VideoManager) (p : VideoPos) (m : ℚ)
    (pl : SimPlayer) (src : VideoSourceCfg)
    (hpl : vm.getPlayer p = some pl) (hsrc : vm.getSource p = some src) :
    (∃ t2, VCmd.seekCmd p t2 ∈ (vm.syncPosition p m).2) ↔
      |pl.currentTime - vm.getOffsetFor p - m| > VideoManager.getSyncThreshold pl := by
  rw [syncPosition_active vm p m pl src hpl hsrc]
  by_cases hd : |pl.currentTime - vm.getOffsetFor p - m| > VideoManager.getSyncThreshold pl
  · rw [if_pos hd, applySeek_active vm p m pl hpl]
    simp only [setPlayer_getPlayer_self, setPlayer_getPending, Option.map_some']
    split_ifs <;> simp [hd]
  · rw [if_neg hd]
    simp only [hpl, Option.map_some']
    split_ifs <;> simp [hd]

/-- Every command emitted by the per-position sync step addresses that
position. -/
theorem syncPosition_tag (vm : VideoManager) (p : VideoPos) (m : ℚ) :
    ∀ c ∈ (vm.syncPosition p m).2, cmdPos c = p := by
  rcases hpl : vm.getPlayer p with _ | pl
  · rw [syncPosition_inactive vm p m (Or.inl hpl)]
    intro c hc
    cases hc
  · rcases hsrc : vm.getSource p with _ | src
    · rw [syncPosition_inactive vm p m (Or.inr hsrc)]
      intro c hc
      cases hc
    · rw [syncPosition_active vm p m pl src hpl hsrc]
      by_cases hd : |pl.currentTime - vm.getOffsetFor p - m| > VideoManager.getSyncThreshold pl
      · rw [if_pos hd, applySeek_active vm p m pl hpl]
        simp only [setPlayer_getPlayer_self, setPlayer_getPending, Option.map_some']
        split_ifs <;> intro c hc <;> simp at hc <;>
          rcases hc with rfl | rfl <;> rfl
      · rw [if_neg hd]
        simp only [hpl, Option.map_some']
        split_ifs <;> intro c hc <;> simp at hc <;> subst hc <;> rfl

/-- The per-position sync step leaves the other position and all sources
and pending flags untouched. -/
theorem syncPosition_keeps (vm : VideoManager) (p : VideoPos) (m : ℚ) (q : VideoPos)
    (hne : q ≠ p) :
    (vm.syncPosition p m).1.getPlayer q = vm.getPlayer q ∧
    (vm.syncPosition p m).1.getSource q = vm.getSource q ∧
    (vm.syncPosition p m).1.getPending q = vm.getPending q ∧
    (vm.syncPosition p m).1.playRequested = vm.playRequested := by
  have hstate : (vm.syncPosition p m).1 = vm ∨
      (∃ x, (vm.syncPosition p m).1 = vm.setPlayer p x) ∨
      (∃ x y, (vm.syncPosition p m).1 = (vm.setPlayer p x).setPlayer p y) := by
    rcases hpl : vm.getPlayer p with _ | pl
    · rw [syncPosition_inactive vm p m (Or.inl hpl)]
      exact Or.inl rfl
    · rcases hsrc : vm.getSource p with _ | src
      · rw [syncPosition_inactive vm p m (Or.inr hsrc)]
        exact Or.inl rfl
      · rw [syncPosition_active vm p m pl src hpl hsrc]
        by_cases hd : |pl.currentTime - vm.getOffsetFor p - m| >
            VideoManager.getSyncThreshold pl
        · rw [if_pos hd, applySeek_active vm p m pl hpl]
          simp only [setPlayer_getPlayer_self, setPlayer_getPending, Option.map_some']
          split_ifs
          · exact Or.inr (Or.inr ⟨_, _, rfl⟩)
          · exact Or.inr (Or.inl ⟨_, rfl⟩)
        · rw [if_neg hd]
          simp only [hpl, Option.map_some']
          split_ifs
          · exact Or.inr (Or.inl ⟨_, rfl⟩)
          · exact Or.inl rfl
  have hsp : ∀ (w : VideoManager) (x : SimPlayer),
      (w.setPlayer p x).getPlayer q = w.getPlayer q :=
    fun w x => setPlayer_getPlayer_other w p q x hne
  have hspr : ∀ (w : VideoManager) (x : SimPlayer),
      (w.setPlayer p x).playRequested = w.playRequested := by
    intro w x
    cases p <;> rfl
  rcases hstate with he | ⟨x, he⟩ | ⟨x, y, he⟩ <;> rw [he]
  · exact ⟨rfl, rfl, rfl, rfl⟩
  · exact ⟨hsp _ _, by simp, by simp, hspr _ _⟩
  · refine ⟨(hsp _ _).trans (hsp _ _), by simp, by simp, (hspr _ _).trans (hspr _ _)⟩

theorem pauseAll_pending (vm : VideoManager) :
    (vm.pauseAll).1.pendingTop = false ∧ (vm.pauseAll).1.pendingBottom = false ∧
    (vm.pauseAll).1.playRequested = false := by
  unfold VideoManager.pauseAll VideoManager.clearPendingPlay
  by_cases h1 : vm.pendingTop <;> by_cases h2 : vm.pendingBottom <;>
    rcases htp : vm.topPlayer with _ | pl1 <;> rcases hbp : vm.bottomPlayer with _ | pl2 <;>
    simp [h1, h2, htp, hbp]

theorem pauseAll_trace (vm : VideoManager) :
    (vm.pauseAll).2 =
      ((if vm.pendingTop then [VCmd.cancelTimer VideoPos.top] else []) ++
       (if vm.pendingBottom then [VCmd.cancelTimer VideoPos.bottom] else [])) ++
      ((match vm.topPlayer with
        | some _ => [VCmd.pauseCmd VideoPos.top]
        | none => []) ++
       (match vm.bottomPlayer with
        | some _ => [VCmd.pauseCmd VideoPos.bottom]
        | none => [])) := by
  unfold VideoManager.pauseAll VideoManager.clearPendingPlay
  by_cases h1 : vm.pendingTop <;> by_cases h2 : vm.pendingBottom <;>
    rcases htp : vm.topPlayer with _ | pl1 <;> rcases hbp : vm.bottomPlayer with _ | pl2 <;>
    simp [h1, h2, htp, hbp]

theorem seekAll_pending (vm : VideoManager) (t : ℚ) :
    (vm.seekAll t).1.pendingTop = vm.pendingTop ∧
    (vm.seekAll t).1.pendingBottom = vm.pendingBottom := by
  unfold VideoManager.seekAll VideoManager.applySeekWithOffset
  rcases htp : vm.topPlayer with _ | pl1 <;> rcases hbp : vm.bottomPlayer with _ | pl2 <;>
    simp [htp, hbp]

theorem playWithOffset_head_cancel (vm : VideoManager) (p : VideoPos) (m : ℚ)
    (pl : SimPlayer) (hpend : vm.getPending p = true) (hpl : vm.getPlayer p = some pl) :
    (vm.playWithOffset p m).2.head? = some (VCmd.cancelTimer p) := by
  unfold VideoManager.playWithOffset VideoManager.clearPendingPlay
  rw [hpl, if_pos hpend]
  simp only []
  rw [applySeek_active (vm.setPending p false) p m pl (by simp [hpl])]
  split_ifs with hneg <;> simp

/-- When the desired time is negative, playWithOffset pauses the player
and arms the deferred timer. -/
theorem playWithOffset_neg_state (vm : VideoManager) (p : VideoPos) (m : ℚ)
    (pl : SimPlayer) (hpl : vm.getPlayer p = some pl)
    (hneg : m + vm.getOffsetFor p < 0) :
    (vm.playWithOffset p m).1.getPending p = true ∧
    (∃ q, (vm.playWithOffset p m).1.getPlayer p = some q ∧ q.paused = true) := by
  unfold VideoManager.playWithOffset VideoManager.clearPendingPlay
  rw [hpl]
  by_cases hpend : vm.getPending p
  · rw [if_pos hpend]
    simp only []
    rw [applySeek_active (vm.setPending p false) p m pl (by simp [hpl])]
    rw [if_pos hneg]
    simp [SimPlayer.pause]
  · rw [if_neg hpend]
    simp only []
    rw [applySeek_active vm p m pl hpl]
    rw [if_pos hneg]
    simp [SimPlayer.pause]

theorem getMasterClock_some (s : AudioEngine) (r : ℚ) (now : ℚ)
    (hr : s.playStartContextTime = some r) :
    s.getMasterClock now =
      if s.masterClock.isPlaying then
        { currentTime := s.playStartOffset + max 0 (now - r), isPlaying := true }
      else s.masterClock := by
  unfold AudioEngine.getMasterClock
  rw [hr]

theorem getMasterClock_none (s : AudioEngine) (now : ℚ)
    (hr : s.playStartContextTime = none) :
    s.getMasterClock now = s.masterClock := by
  unfold AudioEngine.getMasterClock
  rw [hr]

/-! ### Claim theorems -/

/-- C1: while the clock is playing with a recorded time base, a read of
the master clock returns playStartOffset plus the elapsed context time
(exactly, with no per-poll accumulation: the value is a pure function
of the current context time), is monotone in the context time, and
while stopped returns the frozen masterClock record unchanged. -/
theorem clock_read_formula (s : AudioEngine) (r now now1 now2 : ℚ) :
    (s.masterClock.isPlaying = true → s.playStartContextTime = some r → r ≤ now →
      (s.getMasterClock now).currentTime = s.playStartOffset + (now - r)) ∧
    (now1 ≤ now2 →
      (s.getMasterClock now1).currentTime ≤ (s.getMasterClock now2).currentTime) ∧
    (s.masterClock.isPlaying = false → s.getMasterClock now = s.masterClock) := by
  refine ⟨?_, ?_, ?_⟩
  · intro hp hr hle
    rw [getMasterClock_some s r now hr, if_pos hp]
    show s.playStartOffset + max 0 (now - r) = s.playStartOffset + (now - r)
    rw [max_eq_right (by linarith : (0 : ℚ) ≤ now - r)]
  · intro h12
    cases hr : s.playStartContextTime with
    | none => rw [getMasterClock_none s now1 hr, getMasterClock_none s now2 hr]
    | some r0 =>
      rw [getMasterClock_some s r0 now1 hr, getMasterClock_some s r0 now2 hr]
      by_cases hp : s.masterClock.isPlaying
      · rw [if_pos hp, if_pos hp]
        have hmx : max 0 (now1 - r0) ≤ max 0 (now2 - r0) :=
          max_le_max (le_refl 0) (by linarith)
        exact add_le_add_left hmx _
      · rw [if_neg hp, if_neg hp]
  · intro hp
    cases hr : s.playStartContextTime with
    | none => exact getMasterClock_none s now hr
    | some r0 =>
      rw [getMasterClock_some s r0 now hr, if_neg (by simp [hp])]

/-- Witness for C1 at concrete states. -/
theorem clock_read_formula_witness :
    (c1Engine.getMasterClock 4).currentTime = c1Engine.playStartOffset + (4 - 1) ∧
    (c1Engine.getMasterClock 3).currentTime ≤ (c1Engine.getMasterClock 4).currentTime ∧
    c1Stopped.getMasterClock 9 = c1Stopped.masterClock :=
  ⟨(clock_read_formula c1Engine 1 4 3 4).1 rfl rfl (by norm_num),
   (clock_read_formula c1Engine 1 0 3 4).2.1 (by norm_num),
   (clock_read_formula c1Stopped 0 9 0 0).2.2 rfl⟩

/-- C2: attempting to start playback while no positive master audio
duration is available is refused with noAudioRouted, leaving the whole
app state (engine, tracks, source nodes, video manager, isPlaying)
unchanged: nothing is started and nothing is retried. -/
theorem play_refused_without_duration (a : App) (now : ℚ)
    (h1 : a.isPlaying = false) (h2 : a.pendingMediaLoads = 0)
    (h3 : a.engine.getMasterAudioDuration = none ∨
      ∃ d, a.engine.getMasterAudioDuration = some d ∧ d ≤ 0) :
    a.togglePlayPause now = (a, some PlayError.noAudioRouted) := by
  unfold App.togglePlayPause
  rw [if_neg (by simp [App.isMediaLoading, h2])]
  rw [if_neg (by simp [h1])]
  rcases h3 with hnone | ⟨d, hd, hle⟩
  · rw [hnone]
  · rw [hd]
    simp only
    rw [if_pos hle]

/-- Witness for C2: a fresh app with nothing routed. -/
theorem play_refused_without_duration_witness :
    c2App.togglePlayPause 0 = (c2App, some PlayError.noAudioRouted) :=
  play_refused_without_duration c2App 0 rfl rfl (Or.inl rfl)

/-- C6: on a sync tick while playback is requested, each loaded player
receives a corrective seek exactly when its drift (reported time minus
offset minus master time, in absolute value) exceeds its per-kind
threshold, and the thresholds are 0.05 s for native elements and 1 s
for embedded players. -/
theorem syncTick_drift_threshold (vm : VideoManager) (m : ℚ)
    (hreq : vm.playRequested = true) :
    (∀ pl src, vm.topPlayer = some pl → vm.topVideoSource = some src →
      ((∃ t2, VCmd.seekCmd VideoPos.top t2 ∈ (vm.syncToMaster m).2) ↔
        |pl.currentTime - vm.getOffsetFor VideoPos.top - m| >
          VideoManager.getSyncThreshold pl)) ∧
    (∀ pl src, vm.bottomPlayer = some pl → vm.bottomVideoSource = some src →
      ((∃ t2, VCmd.seekCmd VideoPos.bottom t2 ∈ (vm.syncToMaster m).2) ↔
        |pl.currentTime - vm.getOffsetFor VideoPos.bottom - m| >
          VideoManager.getSyncThreshold pl)) ∧
    (∀ pl : SimPlayer,
      (pl.kind = PlayerKind.native → VideoManager.getSyncThreshold pl = 0.05) ∧
      (pl.kind = PlayerKind.youtube → VideoManager.getSyncThreshold pl = 1)) := by
  have hsync : vm.syncToMaster m =
      (((vm.syncPosition VideoPos.top m).1.syncPosition VideoPos.bottom m).1,
        (vm.syncPosition VideoPos.top m).2 ++
          ((vm.syncPosition VideoPos.top m).1.syncPosition VideoPos.bottom m).2) := by
    unfold VideoManager.syncToMaster
    rw [if_neg (by simp [hreq])]
  refine ⟨?_, ?_, ?_⟩
  · intro pl src hpl hsrc
    rw [hsync]
    have htag := syncPosition_tag ((vm.syncPosition VideoPos.top m).1) VideoPos.bottom m
    have hiff := syncPosition_seek_iff vm VideoPos.top m pl src
      (by rw [getPlayer_top]; exact hpl) (by rw [getSource_top]; exact hsrc)
    constructor
    · rintro ⟨t2, ht2⟩
      rcases List.mem_append.mp ht2 with h1 | h2
      · exact hiff.mp ⟨t2, h1⟩
      · have := htag _ h2
        simp [cmdPos] at this
    · intro hd
      rcases hiff.mpr hd with ⟨t2, ht2⟩
      exact ⟨t2, List.mem_append_left _ ht2⟩
  · intro pl src hpl hsrc
    rw [hsync]
    obtain ⟨hkP, hkS, hkPd, hkR⟩ :=
      syncPosition_keeps vm VideoPos.top m VideoPos.bottom (by decide)
    have hplv : (vm.syncPosition VideoPos.top m).1.getPlayer VideoPos.bottom = some pl := by
      rw [hkP, getPlayer_bottom]
      exact hpl
    have hsrcv : (vm.syncPosition VideoPos.top m).1.getSource VideoPos.bottom = some src := by
      rw [hkS, getSource_bottom]
      exact hsrc
    have hoff : (vm.syncPosition VideoPos.top m).1.getOffsetFor VideoPos.bottom =
        vm.getOffsetFor VideoPos.bottom := getOffsetFor_congr hkS
    have hiff := syncPosition_seek_iff ((vm.syncPosition VideoPos.top m).1)
      VideoPos.bottom m pl src hplv hsrcv
    rw [hoff] at hiff
    have htag := syncPosition_tag vm VideoPos.top m
    constructor
    · rintro ⟨t2, ht2⟩
      rcases List.mem_append.mp ht2 with h1 | h2
      · have := htag _ h1
        simp [cmdPos] at this
      · exact hiff.mp ⟨t2, h2⟩
    · intro hd
      rcases hiff.mpr hd with ⟨t2, ht2⟩
      exact ⟨t2, List.mem_append_right _ ht2⟩
  · intro pl
    constructor
    · intro hk
      unfold VideoManager.getSyncThreshold
      rw [hk]
      norm_num [nativeSyncThresholdSeconds]
    · intro hk
      unfold VideoManager.getSyncThreshold
      rw [hk]
      norm_num [youtubeSyncThresholdSeconds]

/-- Witness for C6: with the 0.05 s native threshold, a 2 s drift
triggers a corrective seek and a 0.02 s drift does not. -/
theorem syncTick_drift_threshold_witness :
    (∃ t2, VCmd.seekCmd VideoPos.top t2 ∈ ((c6vm 2).syncToMaster 0).2) ∧
    ¬(∃ t2, VCmd.seekCmd VideoPos.top t2 ∈ ((c6vm 0.02).syncToMaster 0).2) := by
  constructor
  · refine ((syncTick_drift_threshold (c6vm 2) 0 rfl).1 _ _ rfl rfl).mpr ?_
    show |(2 : ℚ) - (c6vm 2).getOffsetFor VideoPos.top - 0| >
      VideoManager.getSyncThreshold _
    norm_num [VideoManager.getOffsetFor, VideoManager.getSource, c6vm,
      VideoManager.getSyncThreshold, nativeSyncThresholdSeconds]
  · intro hex
    have hlt := ((syncTick_drift_threshold (c6vm 0.02) 0 rfl).1 _ _ rfl rfl).mp hex
    norm_num [VideoManager.getOffsetFor, VideoManager.getSource, c6vm,
      VideoManager.getSyncThreshold, nativeSyncThresholdSeconds] at hlt
    rw [show |(1 : ℚ) / 50| = 1 / 50 from abs_of_pos (by norm_num)] at hlt
    norm_num at hlt

/-- C7 counterexample: seekAll issues a seek for a position with a
pending deferred-play timer without canceling it: the pending flag
survives and no cancel command is emitted. -/
theorem seekAll_keeps_pending_counterexample :
    ((c7vm.seekAll 5).1.pendingTop = true) ∧
    (VCmd.seekCmd VideoPos.top 5 ∈ (c7vm.seekAll 5).2) ∧
    (VCmd.cancelTimer VideoPos.top ∉ (c7vm.seekAll 5).2) := by
  have htrace : (c7vm.seekAll 5).2 = [VCmd.seekCmd VideoPos.top 5] := by
    norm_num [c7vm, VideoManager.seekAll, VideoManager.applySeekWithOffset,
      VideoManager.calculateTargetTime, VideoManager.getOffsetFor,
      VideoManager.getPlayer, VideoManager.getSource]
  refine ⟨rfl, ?_, ?_⟩
  · rw [htrace]
    exact List.mem_singleton.mpr rfl
  · intro hc
    rw [htrace] at hc
    simp at hc

/-- C7 amended: a pending deferred-play timer for a position is always
canceled before a new play (playWithOffset emits the cancel first) and
before a pause (pauseAll clears both positions, emitting all cancels
before any pause command); seekAll, however, issues seeks without
touching pending timers. -/
theorem deferred_timer_cancellation_scope (vm : VideoManager) (p : VideoPos)
    (m t : ℚ) (pl : SimPlayer) :
    (vm.getPending p = true → vm.getPlayer p = some pl →
      (vm.playWithOffset p m).2.head? = some (VCmd.cancelTimer p)) ∧
    ((vm.pauseAll).1.pendingTop = false ∧ (vm.pauseAll).1.pendingBottom = false ∧
      (vm.pauseAll).1.playRequested = false) ∧
    (∃ l1 l2, (vm.pauseAll).2 = l1 ++ l2 ∧
      (∀ c ∈ l1, ∃ q, c = VCmd.cancelTimer q) ∧
      (∀ c ∈ l2, ∃ q, c = VCmd.pauseCmd q)) ∧
    ((vm.seekAll t).1.pendingTop = vm.pendingTop ∧
      (vm.seekAll t).1.pendingBottom = vm.pendingBottom) := by
  refine ⟨fun hpend hpl => playWithOffset_head_cancel vm p m pl hpend hpl,
    pauseAll_pending vm, ⟨_, _, pauseAll_trace vm, ?_, ?_⟩, seekAll_pending vm t⟩
  · intro c hc
    rcases List.mem_append.mp hc with h | h
    · by_cases h1 : vm.pendingTop
      · rw [if_pos h1, List.mem_singleton] at h
        exact ⟨_, h⟩
      · rw [if_neg h1] at h
        cases h
    · by_cases h2 : vm.pendingBottom
      · rw [if_pos h2, List.mem_singleton] at h
        exact ⟨_, h⟩
      · rw [if_neg h2] at h
        cases h
  · intro c hc
    rcases List.mem_append.mp hc with h | h
    · rcases htp : vm.topPlayer with _ | pl1
      · rw [htp] at h
        cases h
      · rw [htp, List.mem_singleton] at h
        exact ⟨_, h⟩
    · rcases hbp : vm.bottomPlayer with _ | pl2
      · rw [hbp] at h
        cases h
      · rw [hbp, List.mem_singleton] at h
        exact ⟨_, h⟩

/-- Witness for the amended C7 at a concrete state with a pending top
timer. -/
theorem deferred_timer_cancellation_scope_witness :
    (c7vm.playWithOffset VideoPos.top 0).2.head? = some (VCmd.cancelTimer VideoPos.top) ∧
    (c7vm.pauseAll).1.pendingTop = false :=
  ⟨(deferred_timer_cancellation_scope c7vm VideoPos.top 0 0
      { kind := PlayerKind.native, currentTime := 0, duration := 100,
        paused := true }).1 rfl rfl,
   ((deferred_timer_cancellation_scope c7vm VideoPos.top 0 0
      { kind := PlayerKind.native, currentTime := 0, duration := 100,
        paused := true }).2.1).1⟩

/-- C5 counterexample: two loads of the same id issued before the first
completes start two fetches: the load path performs no dedupe on the
id. -/
theorem load_dedupe_counterexample :
    ((engine0.loadAudioTrackBegin ("a") ("u1")).loadAudioTrackBegin ("a")
      ("u2")).fetchesStarted = ["a", "a"] := rfl

/-- C5 amended: loadAudioTrack keys no in-flight tracking on the id:
every call starts a fetch, so a second load of the same id before the
first completes starts a second fetch (the fetch count for the id grows
by exactly two across the two calls). -/
theorem load_starts_fetch_each_call (s : AudioEngine) (id url1 url2 : String) :
    ((s.loadAudioTrackBegin id url1).loadAudioTrackBegin id
        url2).fetchesStarted.count id =
      s.fetchesStarted.count id + 2 := by
  simp [AudioEngine.loadAudioTrackBegin, List.count_append]

theorem isAnyPlaying_of_pending (vm : VideoManager) (p : VideoPos)
    (h : vm.getPending p = true) : vm.isAnyPlaying = true := by
  cases p <;>
    simp only [getPending_top, getPending_bottom] at h <;>
    simp [VideoManager.isAnyPlaying, h]

/-- C10: isAnyPlaying holds exactly when some loaded player reports
not-paused or a deferred-play timer is pending for some position; in
particular a manager with no players and no pending timers reports
false, and right after playWithOffset enters the negative-offset wait
(player paused, timer armed) the manager still reports playing. -/
theorem isAnyPlaying_characterization (vm : VideoManager) (p : VideoPos) (m : ℚ)
    (pl : SimPlayer) :
    (vm.isAnyPlaying = true ↔
      ((∃ q, vm.topPlayer = some q ∧ q.paused = false) ∨
       (∃ q, vm.bottomPlayer = some q ∧ q.paused = false) ∨
       vm.pendingTop = true ∨ vm.pendingBottom = true)) ∧
    (vm.topPlayer = none → vm.bottomPlayer = none → vm.pendingTop = false →
      vm.pendingBottom = false → vm.isAnyPlaying = false) ∧
    (vm.getPlayer p = some pl → m + vm.getOffsetFor p < 0 →
      (vm.playWithOffset p m).1.isAnyPlaying = true) := by
  refine ⟨?_, ?_, ?_⟩
  · unfold VideoManager.isAnyPlaying
    rcases h1 : vm.topPlayer with _ | q1 <;> rcases h2 : vm.bottomPlayer with _ | q2 <;>
      simp [h1, h2, Bool.or_eq_true, Bool.not_eq_true', or_assoc]
  · intro ht hb hpt hpb
    simp [VideoManager.isAnyPlaying, ht, hb, hpt, hpb]
  · intro hpl hneg
    exact isAnyPlaying_of_pending _ p ((playWithOffset_neg_state vm p m pl hpl hneg).1)

/-- Witness for C10: the empty manager reports not playing; a manager
entering the negative-offset wait still reports playing. -/
theorem isAnyPlaying_characterization_witness :
    vmEmpty.isAnyPlaying = false ∧
    (c7vm.playWithOffset VideoPos.top (-1)).1.isAnyPlaying = true :=
  ⟨(isAnyPlaying_characterization vmEmpty VideoPos.top 0
      { kind := PlayerKind.native, currentTime := 0, duration := 0,
        paused := true }).2.1 rfl rfl rfl rfl,
   (isAnyPlaying_characterization c7vm VideoPos.top (-1)
      { kind := PlayerKind.native, currentTime := 0, duration := 100,
        paused := true }).2.2 rfl
      (by norm_num [c7vm, VideoManager.getOffsetFor])⟩

/-- C8: for a positive viewport width v, raster width w and master
duration d, on valid times the applied translation equals the spec
formula clamp(v/2 - (t/d)*w, v/2 - w, v/2), the translation always
stays between the two boundary positions, and composing with the
inverse pixel-to-time mapping round-trips exactly. -/
theorem scroll_mapping_roundtrip (v w d t : ℚ) (hv : 0 < v) (hw : 0 < w) (hd : 0 < d) :
    (0 ≤ t → t ≤ d → positionTx v w d t = specPositionPx v w d t) ∧
    (v / 2 - w ≤ positionTx v w d t ∧ positionTx v w d t ≤ v / 2) ∧
    (0 ≤ t → t ≤ d →
      positionTx v w d (inversePositionPx v w d (positionTx v w d t)) =
        positionTx v w d t) := by
  refine ⟨?_, ?_, ?_⟩
  · intro ht1 ht2
    unfold positionTx specPositionPx
    simp only []
    rw [min_eq_left ht2, max_eq_right ht1]
  · unfold positionTx
    simp only []
    exact ⟨le_max_left _ _, max_le (by linarith) (min_le_left _ _)⟩
  · intro ht1 ht2
    have hd0 : d ≠ 0 := ne_of_gt hd
    have hw0 : w ≠ 0 := ne_of_gt hw
    have hx1 : 0 ≤ t / d * w := by positivity
    have hx2 : t / d * w ≤ w := by
      have hq : t / d ≤ 1 := (div_le_one hd).mpr ht2
      calc t / d * w ≤ 1 * w := mul_le_mul_of_nonneg_right hq (le_of_lt hw)
        _ = w := one_mul w
    have hpx : positionTx v w d t = v / 2 - t / d * w := by
      unfold positionTx
      simp only []
      rw [min_eq_left ht2, max_eq_right ht1]
      rw [min_eq_right (by linarith), max_eq_right (by linarith)]
    have hinv : inversePositionPx v w d (positionTx v w d t) = t := by
      rw [hpx]
      unfold inversePositionPx
      rw [show v / 2 - (v / 2 - t / d * w) = t / d * w from by ring]
      rw [show t / d * w / w * d = t from by field_simp; ring]
      rw [min_eq_left ht2, max_eq_right ht1]
    rw [hinv]

/-- Witness for C8 at viewport 1000, raster 4000, duration 100,
time 30. -/
theorem scroll_mapping_roundtrip_witness :
    positionTx 1000 4000 100 30 = specPositionPx 1000 4000 100 30 ∧
    (1000 / 2 - 4000 ≤ positionTx 1000 4000 100 30 ∧
      positionTx 1000 4000 100 30 ≤ 1000 / 2) ∧
    positionTx 1000 4000 100 (inversePositionPx 1000 4000 100 (positionTx 1000 4000 100 30)) =
      positionTx 1000 4000 100 30 :=
  ⟨(scroll_mapping_roundtrip 1000 4000 100 30 (by norm_num) (by norm_num)
      (by norm_num)).1 (by norm_num) (by norm_num),
   (scroll_mapping_roundtrip 1000 4000 100 30 (by norm_num) (by norm_num)
      (by norm_num)).2.1,
   (scroll_mapping_roundtrip 1000 4000 100 30 (by norm_num) (by norm_num)
      (by norm_num)).2.2 (by norm_num) (by norm_num)⟩

/-- C4: code bug.  The spec requires seek(t) while playing to restart
all routed sources at the new time and an immediate read to stay within
one frame-tick of t.  In the code, seekAll stores the new time but then
calls pauseAll, which recomputes masterClock.currentTime from the still
recorded pre-seek time base, clobbering the stored seek target before
playAll restarts the tracks.  Concretely: an app playing track a from
position 0 since context time 10, asked at context time 15 to seek to
100, ends up reading position 5 and restarts its source at buffer
offset 5, not 100. -/
theorem seek_while_playing_clobbered :
    (((c4App.seekTo 100 15 15).engine.getMasterClock 15).currentTime = 5) ∧
    ((c4App.seekTo 100 15 15).engine.nodes =
      [{ trackId := "a", startOffset := 0, stopped := true },
       { trackId := "a", startOffset := 5, stopped := false }]) ∧
    ((c4App.seekTo 100 15 15).engine.masterClock.isPlaying = true) := by
  have h100 : max (0 : ℚ) 100 = 100 := max_eq_right (by norm_num)
  have hmax5 : max (0 : ℚ) (15 - 10) = 5 := by
    rw [max_eq_right (by norm_num : (0 : ℚ) ≤ 15 - 10)]
    norm_num
  have hmax0 : max (0 : ℚ) (15 - 15) = 0 := by
    rw [max_eq_right (by norm_num : (0 : ℚ) ≤ 15 - 15)]
    norm_num
  refine ⟨?_, ?_, ?_⟩ <;>
    norm_num [c4App, c4Engine, App.seekTo, AudioEngine.seekAll, AudioEngine.pauseAll,
      AudioEngine.stopAllTracks, AudioEngine.stopAudioTrack, AudioEngine.playAll,
      AudioEngine.playAudioTrack, AudioEngine.getMasterClock, findTrack, updTrack,
      markStopped, h100, hmax5, hmax0]

theorem left_mem_sel {routing : AudioRouting} {l : AudioSource}
    (hl : routing.left = some l) (hc : l.type = SrcType.audio ∧ l.id ≠ ("")) :
    l.id ∈ selectedAudioIds routing := by
  unfold selectedAudioIds
  simp only [hl]
  rw [if_pos hc]
  exact List.mem_append_left _ (List.mem_singleton.mpr rfl)

theorem right_mem_sel {routing : AudioRouting} {r : AudioSource}
    (hr : routing.right = some r) (hc : r.type = SrcType.audio ∧ r.id ≠ ("")) :
    r.id ∈ selectedAudioIds routing := by
  unfold selectedAudioIds
  simp only [hr]
  refine List.mem_append_right _ ?_
  rw [if_pos hc]
  exact List.mem_singleton.mpr rfl

theorem mem_sel_iff {routing : AudioRouting} {id : String} :
    id ∈ selectedAudioIds routing ↔
      (∃ l, routing.left = some l ∧ l.type = SrcType.audio ∧ l.id ≠ ("") ∧ l.id = id) ∨
      (∃ r, routing.right = some r ∧ r.type = SrcType.audio ∧ r.id ≠ ("") ∧
        r.id = id) := by
  constructor
  · intro h
    unfold selectedAudioIds at h
    rcases List.mem_append.mp h with h | h
    · left
      rcases hl : routing.left with _ | l
      · simp only [hl] at h
        cases h
      · simp only [hl] at h
        by_cases hc : l.type = SrcType.audio ∧ l.id ≠ ("")
        · rw [if_pos hc] at h
          exact ⟨l, rfl, hc.1, hc.2, (List.mem_singleton.mp h).symm⟩
        · rw [if_neg hc] at h
          cases h
    · right
      rcases hr : routing.right with _ | r
      · simp only [hr] at h
        cases h
      · simp only [hr] at h
        by_cases hc : r.type = SrcType.audio ∧ r.id ≠ ("")
        · rw [if_pos hc] at h
          exact ⟨r, rfl, hc.1, hc.2, (List.mem_singleton.mp h).symm⟩
        · rw [if_neg hc] at h
          cases h
  · rintro (⟨l, hl, h1, h2, h3⟩ | ⟨r, hr, h1, h2, h3⟩)
    · exact h3 ▸ left_mem_sel hl ⟨h1, h2⟩
    · exact h3 ▸ right_mem_sel hr ⟨h1, h2⟩

/-- The restart phase changes neither the clock nor the recorded time
base. -/
theorem restartSelected_ctrl (u : AudioEngine) (routing : AudioRouting) :
    (u.restartSelected routing).masterClock = u.masterClock ∧
    (u.restartSelected routing).playStartContextTime = u.playStartContextTime ∧
    (u.restartSelected routing).playStartOffset = u.playStartOffset := by
  have hp : ∀ (w : AudioEngine) (idq : String),
      (w.playAudioTrack idq).masterClock = w.masterClock ∧
      (w.playAudioTrack idq).playStartContextTime = w.playStartContextTime ∧
      (w.playAudioTrack idq).playStartOffset = w.playStartOffset :=
    fun w idq => ⟨(playAudioTrack_ctrl w idq).2.1, (playAudioTrack_ctrl w idq).2.2.1,
      (playAudioTrack_ctrl w idq).2.2.2.1⟩
  unfold AudioEngine.restartSelected
  rcases hl : routing.left with _ | l <;> rcases hr : routing.right with _ | r <;>
    simp only [hl, hr]
  · exact ⟨trivial, trivial, trivial⟩
  · split_ifs
    · exact hp _ _
    · exact ⟨rfl, rfl, rfl⟩
  · split_ifs
    · exact hp _ _
    · exact ⟨rfl, rfl, rfl⟩
  · by_cases hcl : l.type = SrcType.audio ∧ l.id ≠ ("")
    · rw [if_pos hcl]
      split_ifs
      · exact ⟨(hp _ _).1.trans (hp _ _).1, (hp _ _).2.1.trans (hp _ _).2.1,
          (hp _ _).2.2.trans (hp _ _).2.2⟩
      · exact hp _ _
    · rw [if_neg hcl]
      split_ifs
      · exact hp _ _
      · exact ⟨rfl, rfl, rfl⟩

/-- The restart phase starts only selected ids: unselected ids keep no
live node. -/
theorem restartSelected_noLive (u : AudioEngine) (routing : AudioRouting) {id : String}
    (hid : id ∉ selectedAudioIds routing) (h : noLive u.nodes id) :
    noLive (u.restartSelected routing).nodes id := by
  unfold AudioEngine.restartSelected
  rcases hl : routing.left with _ | l <;> rcases hr : routing.right with _ | r <;>
    simp only [hl, hr]
  · exact h
  · split_ifs with hg
    · exact noLive_playAudioTrack
        (fun hEq => hid (by rw [hEq]; exact right_mem_sel hr ⟨hg.1, hg.2.1⟩)) h
    · exact h
  · split_ifs with hg
    · exact noLive_playAudioTrack
        (fun hEq => hid (by rw [hEq]; exact left_mem_sel hl hg)) h
    · exact h
  · by_cases hcl : l.type = SrcType.audio ∧ l.id ≠ ("")
    · rw [if_pos hcl]
      have h4 : noLive (u.playAudioTrack l.id).nodes id :=
        noLive_playAudioTrack
          (fun hEq => hid (by rw [hEq]; exact left_mem_sel hl hcl)) h
      split_ifs with hg
      · exact noLive_playAudioTrack
          (fun hEq => hid (by rw [hEq]; exact right_mem_sel hr ⟨hg.1, hg.2.1⟩)) h4
      · exact h4
    · rw [if_neg hcl]
      split_ifs with hg
      · exact noLive_playAudioTrack
          (fun hEq => hid (by rw [hEq]; exact right_mem_sel hr ⟨hg.1, hg.2.1⟩)) h
      · exact h

/-- The restart phase starts every selected id that is loaded with a
decoded buffer, at the current master time (the captured position). -/
theorem restartSelected_live (u : AudioEngine) (routing : AudioRouting)
    (hInv : EngineInv u)
    (hvid : ∀ a : AudioSource, (routing.left = some a ∨ routing.right = some a) →
      a.type = SrcType.video → a.id = (""))
    {id : String} (hid : id ∈ selectedAudioIds routing)
    {t : AudioTrack} (hf : findTrack u.audioTracks id = some t)
    (hb : t.buffer.isSome = true) :
    liveAt (u.restartSelected routing).nodes id u.masterClock.currentTime := by
  obtain ⟨d, hd⟩ := Option.isSome_iff_exists.mp hb
  rcases mem_sel_iff.mp hid with ⟨l, hl, hlt, hlne, hlid⟩ | ⟨r, hr, hrt, hrne, hrid⟩
  · subst hlid
    unfold AudioEngine.restartSelected
    simp only [hl]
    rw [if_pos ⟨hlt, hlne⟩]
    have hlive4 : liveAt (u.playAudioTrack l.id).nodes l.id u.masterClock.currentTime :=
      play_makes_live hf hd
    rcases hr2 : routing.right with _ | r
    · simp only [hr2]
      exact hlive4
    · simp only [hr2]
      split_ifs with hg
      · have hne : l.id ≠ r.id := by
          intro hEq
          exact hg.2.2 (by rw [Option.map_some', hEq])
        exact play_preserves_live (inv_playAudioTrack l.id hInv) hne hlive4
      · exact hlive4
  · subst hrid
    unfold AudioEngine.restartSelected
    rcases hl2 : routing.left with _ | l
    · simp only [hl2, hr]
      rw [if_pos ⟨hrt, hrne, by simp⟩]
      exact play_makes_live hf hd
    · simp only [hl2, hr]
      by_cases hcl : l.type = SrcType.audio ∧ l.id ≠ ("")
      · rw [if_pos hcl]
        by_cases hlr : l.id = r.id
        · rw [if_neg (fun hg => hg.2.2 (by rw [Option.map_some', hlr]))]
          rw [← hlr]
          exact play_makes_live (hlr ▸ hf) hd
        · rw [if_pos ⟨hrt, hrne, fun hEq => hlr (by
            rw [Option.map_some'] at hEq
            exact Option.some.inj hEq)⟩]
          have hmap := play_find_buffer u l.id r.id
          rw [hf, Option.map_some'] at hmap
          cases hf4 : findTrack (u.playAudioTrack l.id).audioTracks r.id with
          | none => rw [hf4] at hmap; cases hmap
          | some t4 =>
            rw [hf4, Option.map_some'] at hmap
            have hb4 : t4.buffer = some d := by
              rw [Option.some.inj hmap]
              exact hd
            have hlive := play_makes_live hf4 hb4
            rw [(playAudioTrack_ctrl u l.id).2.1] at hlive
            exact hlive
      · rw [if_neg hcl]
        have hlid0 : l.id = ("") := by
          cases hlt2 : l.type with
          | audio =>
            by_contra hne
            exact hcl ⟨hlt2, hne⟩
          | video => exact hvid l (Or.inl hl2) hlt2
        rw [if_pos ⟨hrt, hrne, fun hEq => hrne (by
          rw [Option.map_some'] at hEq
          rw [← Option.some.inj hEq]
          exact hlid0)⟩]
        exact play_makes_live hf hd

/-- Decomposition of setRouting on the playing path: the stop fold over
the unselected tracks, the clock reset to the captured position, the
restart of the selected tracks, and the playing flag. -/
theorem setRouting_playing_decomp (s : AudioEngine) (routing : AudioRouting) (now : ℚ)
    (hplay : s.masterClock.isPlaying = true) :
    ∃ s2 s3 : AudioEngine,
      s2 = (s.audioTracks.map (fun (t : AudioTrack) => t.id)).foldl
        (fun acc id => if id ∈ selectedAudioIds routing then acc
          else acc.stopAudioTrack id) ({ s with currentRouting := routing }) ∧
      s3 = { s2 with
        masterClock := { s2.masterClock with
          currentTime := (s.getMasterClock now).currentTime },
        playStartContextTime := some now,
        playStartOffset := (s.getMasterClock now).currentTime } ∧
      s.setRouting routing now =
        { s3.restartSelected routing with
          masterClock := { (s3.restartSelected routing).masterClock with
            isPlaying := true } } := by
  refine ⟨_, _, rfl, rfl, ?_⟩
  simp only [AudioEngine.setRouting]
  rw [if_pos hplay]

/-- C3: a routing change issued while the clock is playing keeps the
clock playing, freshly recomputes the reference pair to the master time
captured at the change (playStartContextTime := now, playStartOffset and
the stored currentTime := the captured position), stops every track not
selected by the new endpoints (no live source node remains for it), and
starts every newly routed loaded track at exactly the captured position.
The blank-id premise reflects how the app builds video endpoints (their
id field is the empty string). -/
theorem setRouting_while_playing (s : AudioEngine) (routing : AudioRouting) (now : ℚ)
    (hInv : EngineInv s) (hplay : s.masterClock.isPlaying = true)
    (hvid : ∀ a : AudioSource, (routing.left = some a ∨ routing.right = some a) →
      a.type = SrcType.video → a.id = ("")) :
    (s.setRouting routing now).masterClock.isPlaying = true ∧
    (s.setRouting routing now).playStartContextTime = some now ∧
    (s.setRouting routing now).playStartOffset = (s.getMasterClock now).currentTime ∧
    (s.setRouting routing now).masterClock.currentTime =
      (s.getMasterClock now).currentTime ∧
    (∀ id, id ∉ selectedAudioIds routing →
      (noLive s.nodes id ∨ ∃ t ∈ s.audioTracks, t.id = id) →
      noLive (s.setRouting routing now).nodes id) ∧
    (∀ id t, id ∈ selectedAudioIds routing → findTrack s.audioTracks id = some t →
      t.buffer.isSome = true →
      liveAt (s.setRouting routing now).nodes id (s.getMasterClock now).currentTime) := by
  obtain ⟨s2, s3, hs2, hs3, heq⟩ := setRouting_playing_decomp s routing now hplay
  have hInv2 : EngineInv s2 := by
    rw [hs2]
    exact inv_foldStopCond _ _ _ ((EngineInv_parts rfl rfl).mpr hInv)
  have hInv3 : EngineInv s3 := by
    rw [hs3]
    exact (EngineInv_parts rfl rfl).mpr hInv2
  have hctrl := restartSelected_ctrl s3 routing
  have hctx3 : s3.playStartContextTime = some now := by rw [hs3]
  have hoff3 : s3.playStartOffset = (s.getMasterClock now).currentTime := by rw [hs3]
  have hclock3 : s3.masterClock.currentTime = (s.getMasterClock now).currentTime := by
    rw [hs3]
  rw [heq]
  refine ⟨rfl, ?_, ?_, ?_, ?_, ?_⟩
  · exact hctrl.2.1.trans hctx3
  · exact hctrl.2.2.trans hoff3
  · exact (congrArg MasterClock.currentTime hctrl.1).trans hclock3
  · intro id hnotsel hsrc
    have hNo2 : noLive s2.nodes id := by
      rw [hs2]
      rcases hsrc with hnl | ⟨t, ht, htid⟩
      · exact foldCond_noLive_mono (selectedAudioIds routing) _
          ({ s with currentRouting := routing }) hnl
      · exact foldCond_noLive (selectedAudioIds routing) _
          ({ s with currentRouting := routing }) ((EngineInv_parts rfl rfl).mpr hInv)
          (List.mem_map.mpr ⟨t, ht, htid⟩) hnotsel
    have hNo3 : noLive s3.nodes id := by
      rw [hs3]
      exact hNo2
    exact restartSelected_noLive s3 routing hnotsel hNo3
  · intro id t hsel hf hb
    have hf2 : findTrack s2.audioTracks id = some t := by
      rw [hs2]
      exact (foldCond_find_sel _ _ _ hsel).trans hf
    have hf3 : findTrack s3.audioTracks id = some t := by
      rw [hs3]
      exact hf2
    have hlive := restartSelected_live s3 routing hInv3 hvid hsel hf3 hb
    rw [hclock3] at hlive
    exact hlive

/-- The concrete two-track engine satisfies the engine invariant. -/
theorem c3Engine_inv : EngineInv c3Engine := by
  unfold EngineInv InvL
  decide

/-- Witness for C3: the playing two-track engine rerouted to track b
only; track a is left with no live node, track b is restarted at the
captured position, and the clock stays playing. -/
theorem setRouting_while_playing_witness :
    EngineInv c3Engine ∧
    (c3Engine.setRouting c3Routing 12).masterClock.isPlaying = true ∧
    (c3Engine.setRouting c3Routing 12).playStartContextTime = some 12 ∧
    noLive (c3Engine.setRouting c3Routing 12).nodes ("a") ∧
    liveAt (c3Engine.setRouting c3Routing 12).nodes ("b")
      ((c3Engine.getMasterClock 12).currentTime) := by
  have hvid : ∀ a : AudioSource, (c3Routing.left = some a ∨ c3Routing.right = some a) →
      a.type = SrcType.video → a.id = ("") := by
    rintro a (ha | ha) hv
    · cases ha
      cases hv
    · cases ha
  refine ⟨c3Engine_inv,
    (setRouting_while_playing c3Engine c3Routing 12 c3Engine_inv rfl hvid).1,
    (setRouting_while_playing c3Engine c3Routing 12 c3Engine_inv rfl hvid).2.1, ?_, ?_⟩
  · refine (setRouting_while_playing c3Engine c3Routing 12 c3Engine_inv rfl
      hvid).2.2.2.2.1 ("a") (by decide) ?_
    exact Or.inr ⟨_, List.Mem.head _, rfl⟩
  · exact (setRouting_while_playing c3Engine c3Routing 12 c3Engine_inv rfl
      hvid).2.2.2.2.2 ("b")
      ({ id := "b", url := "b.mp3", buffer := some 100, sourceNode := some 1,
         gain := 1, isLoaded := true, isPlaying := true }) (by decide) rfl rfl

/-- C9: every playback-control operation preserves the invariant that a
loaded track references at most one live source node (the start path
stops and discards any existing node first), the invariant entails at
most one active playback instance per track id, and when the same track
is routed to both channels playAll starts it once, never twice (at most
one node is created). -/
theorem single_playback_instance (s : AudioEngine) (id : String)
    (now time nowPause nowPlay : ℚ) (routing : AudioRouting) (hInv : EngineInv s) :
    EngineInv (s.playAudioTrack id) ∧
    EngineInv (s.stopAudioTrack id) ∧
    EngineInv (s.playAll now) ∧
    EngineInv (s.pauseAll now) ∧
    EngineInv (s.seekAll time nowPause nowPlay) ∧
    EngineInv (s.setRouting routing now) ∧
    atMostOneActive (s.playAudioTrack id) ∧
    (s.currentRouting.left = s.currentRouting.right →
      (s.playAll now).nodes.length ≤ s.nodes.length + 1) :=
  ⟨inv_playAudioTrack id hInv, inv_stopAudioTrack id hInv, inv_playAll now hInv,
   inv_pauseAll now hInv, inv_seekAll time nowPause nowPlay hInv,
   inv_setRouting routing now hInv, atMostOne_of_inv (inv_playAudioTrack id hInv),
   fun h => playAll_len_same_routing s now h⟩

/-- Witness for C9 at the two-track engine: restarting the playing
track a preserves the invariant and leaves at most one active instance
per id. -/
theorem single_playback_instance_witness :
    EngineInv c3Engine ∧ EngineInv (c3Engine.playAudioTrack ("a")) ∧
    atMostOneActive (c3Engine.playAudioTrack ("a")) :=
  ⟨c3Engine_inv,
   (single_playback_instance c3Engine ("a") 0 0 0 0 c3Routing c3Engine_inv).1,
   (single_playback_instance c3Engine ("a") 0 0 0 0 c3Routing c3Engine_inv).2.2.2.2.2.2.1⟩

end MusicPlayer
